import Mathlib

/-!
Force Distribution Analysis: settings, force store, force file and analyses.

Shallow embedding of `src/gromacs/fda/FDASettings.h` (struct `fda::FDASettings`),
of the parts of the pairwise force store, the force file and the two analyses that
the specification describes, and of the storage checks of the mock analysis module
(`src/gromacs/analysisdata/tests/mock_module.cpp`).
-/

namespace fda

/-! ## Definitions -/

/-- Modelled from the spec: the enumeration `ResultType` of header `ResultType.h`, which is
not among the sources. The eight result types of spec section 4.1, under the enumerator
names that `FDASettings.h` uses. -/
inductive ResultType where
  | NO
  | PAIRWISE_FORCES_VECTOR
  | PAIRWISE_FORCES_SCALAR
  | PUNCTUAL_STRESS
  | VIRIAL_STRESS
  | VIRIAL_STRESS_VON_MISES
  | COMPAT_BIN
  | COMPAT_ASCII
  deriving DecidableEq, Repr

/-- Modelled from the spec: the enumeration `OnePair` of header `OnePair.h`, which is not among
the sources. The two one-pair modes of spec section 4.2; `DETAILED` is the enumerator the
default constructor names. -/
inductive OnePair where
  | DETAILED
  | SUMMED
  deriving DecidableEq, Repr

/-- Modelled from the spec: the enumeration `Vector2Scalar` of header `Vector2Scalar.h`, which
is not among the sources. The two projection methods of spec section 4.2; `NORM` is the
enumerator the default constructor names. -/
inductive Vector2Scalar where
  | NORM
  | PROJECTION
  deriving DecidableEq, Repr

/-- Modelled from the spec: the enumeration `ResiduesRenumber` of header `ResidueRenumber.h`,
which is not among the sources; `AUTO` is the enumerator the default constructor names. -/
inductive ResiduesRenumber where
  | AUTO
  | DO
  | DONT
  deriving DecidableEq, Repr

/-- Modelled from the spec: the interaction-type bitmask `InteractionType` of header
`InteractionType.h`, which is not among the sources; a set of interaction-type bits. -/
abbrev InteractionType := Nat

/-- Modelled from the spec: the constant `InteractionType_NONE` of header `InteractionType.h`,
which is not among the sources: the empty bitmask. -/
def InteractionType_NONE : InteractionType := 0

/-- The struct `fda::FDASettings`, members in the order of their declaration. A `char` is an
`Int`, `real` is an exact rational, a `std::vector` is a list and a `std::map` a list of
key-value entries. The two pointer members (`groups`, `groupnames`, null after the default
constructor) and the two static constants (`compat_fm_version`, `compat_new_entry`, defined
outside the header) are not read by the embedded functions and are left out. -/
structure FDASettings where
  atom_based_result_type : ResultType
  residue_based_result_type : ResultType
  binary_result_file : Bool
  one_pair : OnePair
  v2s : Vector2Scalar
  residues_renumber : ResiduesRenumber
  no_end_zeros : Bool
  syslen_atoms : Int
  syslen_residues : Int
  sys2pf_atoms : List (Int × Int)
  sys2pf_residues : List (Int × Int)
  time_averaging_period : Int
  atom_based_result_filename : String
  residue_based_result_filename : String
  sys_in_group1 : List Int
  sys_in_group2 : List Int
  groupname : String
  type : InteractionType
  atom_2_residue : List Int
  residue_size : List Int
  nonbonded_exclusion_on : Bool
  bonded_exclusion_on : Bool
  index_group1 : Int
  index_group2 : Int
  threshold : ℚ
  normalize_psr : Bool
  ignore_missing_potentials : Bool
  deriving Repr

/-- The contents of the storage an object is constructed in, for the two `bool` members that
the mem-initializer list of the default constructor does not name: a member that is not
initialized keeps whatever its storage holds. -/
structure Storage where
  normalize_psr : Bool
  ignore_missing_potentials : Bool
  deriving DecidableEq, Repr

/-- The default constructor `FDASettings::FDASettings()`, lines 27-46. Its mem-initializer
list names eighteen members; the containers and strings are default-constructed empty;
`normalize_psr` and `ignore_missing_potentials` are not named and are read from the storage. -/
def FDASettings.default_constructor (mem : Storage) : FDASettings where
  atom_based_result_type := ResultType.NO
  residue_based_result_type := ResultType.NO
  binary_result_file := false
  one_pair := OnePair.DETAILED
  v2s := Vector2Scalar.NORM
  residues_renumber := ResiduesRenumber.AUTO
  no_end_zeros := false
  syslen_atoms := 0
  syslen_residues := 0
  sys2pf_atoms := []
  sys2pf_residues := []
  time_averaging_period := 1
  atom_based_result_filename := ""
  residue_based_result_filename := ""
  sys_in_group1 := []
  sys_in_group2 := []
  groupname := ""
  type := InteractionType_NONE
  atom_2_residue := []
  residue_size := []
  nonbonded_exclusion_on := true
  bonded_exclusion_on := true
  index_group1 := -1
  index_group2 := -1
  threshold := 1 / 10 ^ 10
  normalize_psr := mem.normalize_psr
  ignore_missing_potentials := mem.ignore_missing_potentials

/-- The unchecked `std::vector<char>::operator[]` with an `int` index: an element inside the
vector is returned, an index outside it has no defined result. -/
def index (v : List Int) (i : Int) : Option Int :=
  if 0 ≤ i then v[i.toNat]? else none

/-- `FDASettings::atom_in_groups`, lines 52-54: `sys_in_group1[i] or sys_in_group2[i]`, the
second operand read only when the first is zero. -/
def FDASettings.atom_in_groups (s : FDASettings) (i : Int) : Option Bool := do
  let a ← index s.sys_in_group1 i
  if a ≠ 0 then pure true
  else do
    let b ← index s.sys_in_group2 i
    pure (decide (b ≠ 0))

/-- One conjunction `sys_in_group1[i] and sys_in_group2[j]` of `atoms_in_groups`, the second
operand read only when the first is non-zero. -/
def FDASettings.one_in_each (s : FDASettings) (i j : Int) : Option Bool := do
  let a ← index s.sys_in_group1 i
  if a ≠ 0 then do
    let b ← index s.sys_in_group2 j
    pure (decide (b ≠ 0))
  else pure false

/-- `FDASettings::atoms_in_groups`, lines 57-59:
`(sys_in_group1[i] and sys_in_group2[j]) or (sys_in_group1[j] and sys_in_group2[i])`, the
second conjunction evaluated only when the first is false. -/
def FDASettings.atoms_in_groups (s : FDASettings) (i j : Int) : Option Bool := do
  let l ← s.one_in_each i j
  if l then pure true else s.one_in_each j i

/-- `FDASettings::compatibility_mode`, lines 75-77. -/
def FDASettings.compatibility_mode (_s : FDASettings) (r : ResultType) : Bool :=
  r == ResultType.COMPAT_BIN || r == ResultType.COMPAT_ASCII

/-- `FDASettings::stress_mode`, lines 79-81. -/
def FDASettings.stress_mode (_s : FDASettings) (r : ResultType) : Bool :=
  r == ResultType.PUNCTUAL_STRESS || r == ResultType.VIRIAL_STRESS
    || r == ResultType.VIRIAL_STRESS_VON_MISES

/-- `FDASettings::PF_or_PS_mode`, lines 83-85. -/
def FDASettings.PF_or_PS_mode (_s : FDASettings) (r : ResultType) : Bool :=
  r == ResultType.PAIRWISE_FORCES_VECTOR || r == ResultType.PAIRWISE_FORCES_SCALAR
    || r == ResultType.PUNCTUAL_STRESS

/-- `FDASettings::VS_mode`, lines 87-89. -/
def FDASettings.VS_mode (_s : FDASettings) (r : ResultType) : Bool :=
  r == ResultType.VIRIAL_STRESS || r == ResultType.VIRIAL_STRESS_VON_MISES

/-- Atom `i` is in group 1: its entry of `sys_in_group1` exists and is non-zero (member
comment, line 137). -/
def FDASettings.in_group1 (s : FDASettings) (i : Int) : Bool :=
  match index s.sys_in_group1 i with
  | some c => c != 0
  | none => false

/-- Atom `i` is in group 2: its entry of `sys_in_group2` exists and is non-zero (member
comment, line 140). -/
def FDASettings.in_group2 (s : FDASettings) (i : Int) : Bool :=
  match index s.sys_in_group2 i with
  | some c => c != 0
  | none => false

/-- The atom index `i` is covered by both group masks. -/
def FDASettings.covered (s : FDASettings) (i : Int) : Prop :=
  0 ≤ i ∧ i < s.sys_in_group1.length ∧ i < s.sys_in_group2.length

instance (s : FDASettings) (i : Int) : Decidable (s.covered i) := by
  unfold FDASettings.covered; infer_instance

/-- A settings object over three atoms: atom 0 in group 1, atom 1 in group 2, atom 2 in
neither. The other members are those of the default constructor. -/
def settings3 : FDASettings :=
  { FDASettings.default_constructor ⟨false, false⟩ with
    sys_in_group1 := [1, 0, 0], sys_in_group2 := [0, 1, 0], syslen_atoms := 3 }

/-! ### Pairwise force store -/

/-- Modelled from the spec: the value of a contribution (spec section 3, InteractionRecord:
"either a scalar force magnitude or a 3-component force vector"), whose types `real`, `rvec`
and `fda::Vector` are declared in headers that are not among the sources. Values add,
`reaches v t` is the threshold test `|v| ≥ t` of spec section 4.2, over exact arithmetic, and
`components` lists the "one scalar or three vector components" that a file holds for the value
(spec section 4.3), `arity` of them, from which `of_components` rebuilds it. -/
class ForceValue (V : Type) extends AddCommMonoid V where
  reaches : V → ℚ → Bool
  arity : Nat
  components : V → List ℚ
  of_components : List ℚ → Option V

/-- A scalar force: `|v| ≥ t`; one component. -/
instance : ForceValue ℚ where
  reaches v t := decide (t ≤ |v|)
  arity := 1
  components v := [v]
  of_components
    | [x] => some x
    | _ => none

/-- A 3-component force vector: its Euclidean norm is at least `t`, stated without the square
root as `t ≤ 0` or `t² ≤ x² + y² + z²`; three components. -/
instance : ForceValue (ℚ × ℚ × ℚ) where
  reaches v t := decide (t ≤ 0 ∨ t ^ 2 ≤ v.1 ^ 2 + v.2.1 ^ 2 + v.2.2 ^ 2)
  arity := 3
  components v := [v.1, v.2.1, v.2.2]
  of_components
    | [x, y, z] => some (x, y, z)
    | _ => none

/-- Modelled from the spec: one InteractionRecord (spec section 3): endpoint pair, an
interaction-type tag and a value. The tag of a potential that the analysis does not recognize
is `none`. The declaring headers are not among the sources. -/
structure InteractionRecord (V : Type) where
  i : Int
  j : Int
  type : Option InteractionType
  value : V

/-- Insert-or-update in an association list: the entry of key `k` becomes `f` of its old
value (`none` when the key is new, in which case the entry is appended). -/
def upsert {K W : Type} [DecidableEq K] (k : K) (f : Option W → W) :
    List (K × W) → List (K × W)
  | [] => [(k, f none)]
  | (k', w) :: rest =>
    if k' = k then (k', f (some w)) :: rest else (k', w) :: upsert k f rest

/-- The entry of key `k` in an association list. -/
def entry {K W : Type} [DecidableEq K] (k : K) : List (K × W) → Option W
  | [] => none
  | (k', w) :: rest => if k' = k then some w else entry k rest

/-- Add a contribution `v` into the accumulator of key `k`: "adds into the existing value"
(spec section 4.2), a new accumulator starting at `v`. -/
def accumulate {K V : Type} [DecidableEq K] [Add V] (k : K) (v : V) :
    List (K × V) → List (K × V) :=
  upsert k (fun old => match old with
    | none => v
    | some w => w + v)

/-- Add a contribution `v` of interaction type `t` into the slot of that type of pair `p`:
"each interaction type keeps its own accumulator slot for that pair" (spec section 4.2). -/
def accumulate_detailed {V : Type} [Add V] (p : Int × Int) (t : InteractionType) (v : V) :
    List ((Int × Int) × List (InteractionType × V)) →
    List ((Int × Int) × List (InteractionType × V)) :=
  upsert p (fun old => accumulate t v (old.getD []))

/-- Modelled from the spec: the per-frame accumulators of `DistributedForces` (members
`scalar`, `vector`, `detailed`, lines 58-65), whose element types `DistributedForcesScalar`,
`DistributedForcesVector` and `DistributedForcesDetailed` are declared in headers that are not
among the sources. `summed` holds one accumulator per pair (the `scalar` or `vector` member,
by the value type), `detailed` one accumulator slot per pair and interaction type, and
`skipped` is the counter of dropped contributions of unrecognized type. -/
structure DistributedForces (V : Type) where
  fda_settings : FDASettings
  summed : List ((Int × Int) × V)
  detailed : List ((Int × Int) × List (InteractionType × V))
  skipped : Nat

/-- A store with no contribution yet. -/
def DistributedForces.empty {V : Type} (s : FDASettings) : DistributedForces V :=
  ⟨s, [], [], 0⟩

/-- The fatal error that aborts a run. -/
inductive Fatal where
  | unsupported_potential
  deriving DecidableEq, Repr

/-- Modelled from the spec: `addInteraction(i, j, type, value)` of the pairwise force store
(spec section 4.2), whose definition is not among the sources. A contribution of unrecognized
type is fatal when `ignore_missing_potentials` is false, and is dropped and counted when it is
true. A recognized contribution is added if the pair is in scope (`atoms_in_groups`), its type
passes the interaction-type/exclusion filters (`filters`, which the spec does not define and
which is a parameter) and `|value| ≥ threshold`: in summed one-pair mode into the single
accumulator of the pair, in detailed mode into the slot of its interaction type. -/
def DistributedForces.addInteraction {V : Type} [ForceValue V]
    (filters : InteractionType → Bool) (st : DistributedForces V)
    (r : InteractionRecord V) : Except Fatal (DistributedForces V) :=
  match r.type with
  | none =>
    if st.fda_settings.ignore_missing_potentials then .ok { st with skipped := st.skipped + 1 }
    else .error Fatal.unsupported_potential
  | some t =>
    if st.fda_settings.atoms_in_groups r.i r.j = some true ∧ filters t = true
        ∧ ForceValue.reaches r.value st.fda_settings.threshold = true then
      match st.fda_settings.one_pair with
      | OnePair.SUMMED => .ok { st with summed := accumulate (r.i, r.j) r.value st.summed }
      | OnePair.DETAILED =>
        .ok { st with detailed := accumulate_detailed (r.i, r.j) t r.value st.detailed }
    else .ok st

/-- Modelled from the spec: a run feeds the stream of contributions of the force-field
collaborator (spec section 6) to `addInteraction`, one after the other, and stops at the first
fatal error. -/
def DistributedForces.run {V : Type} [ForceValue V] (filters : InteractionType → Bool)
    (st : DistributedForces V) (rs : List (InteractionRecord V)) :
    Except Fatal (DistributedForces V) :=
  rs.foldlM (DistributedForces.addInteraction filters) st

/-- The exit code of a run: 1 after a fatal error (`ExitedWithCode(1)`, FDATest.cpp line 102),
0 after a run that completes (`ASSERT_FALSE(gmx_mdrun(...))`, line 104). -/
def exit_code {σ : Type} : Except Fatal σ → Nat
  | .ok _ => 0
  | .error _ => 1

/-- The summed view of a pair in detailed mode: "a summed view is obtained by adding across
slots on demand" (spec section 4.2). -/
def sum_slots {V : Type} [AddCommMonoid V] (slots : List (InteractionType × V)) : V :=
  (slots.map Prod.snd).sum

/-- The summed view of pair `p` of a store filled in detailed mode, if the pair is stored. -/
def DistributedForces.detailed_sum {V : Type} [AddCommMonoid V] (st : DistributedForces V)
    (p : Int × Int) : Option V :=
  (entry p st.detailed).map sum_slots

/-- The accumulator of pair `p` of a store filled in summed mode, if the pair is stored. -/
def DistributedForces.summed_value {V : Type} (st : DistributedForces V)
    (p : Int × Int) : Option V :=
  entry p st.summed

/-- The settings `s` with the one-pair mode set to `m`. -/
def FDASettings.with_one_pair (s : FDASettings) (m : OnePair) : FDASettings :=
  { s with one_pair := m }

/-- Three contributions to the pair (0, 1) of the three-atom settings, of interaction types
1, 2 and 1. -/
def records3 : List (InteractionRecord ℚ) :=
  [⟨0, 1, some 1, 5⟩, ⟨0, 1, some 2, 3⟩, ⟨0, 1, some 1, -1⟩]

/-- The contribution is of a type that the analysis recognizes. -/
def InteractionRecord.recognized {V : Type} (r : InteractionRecord V) : Bool :=
  r.type.isSome

/-- The store `st` with `k` more dropped contributions counted. -/
def DistributedForces.add_skipped {V : Type} (st : DistributedForces V) (k : Nat) :
    DistributedForces V :=
  { st with skipped := st.skipped + k }

/-- The three contributions of `records3` followed by one of an unrecognized potential. -/
def records4 : List (InteractionRecord ℚ) :=
  records3 ++ [⟨0, 1, none, 4⟩]

/-- The three-atom settings with `ignore_missing_potentials` set. -/
def settings3_ignoring : FDASettings :=
  { settings3 with ignore_missing_potentials := true }

/-! ### Pairwise force file -/

/-- Modelled from the spec: the two current file formats of the pairwise force file (spec
section 4.3), whose code (`PairwiseForces.h`) is not among the sources. -/
inductive Format where
  | ASCII
  | BINARY
  deriving DecidableEq, Repr

/-- Modelled from the spec: one field of a force file: the version marker of the format, an
integer or a real number. A number is the exact value that the field holds; how a format
spells it (bytes, decimal digits) is below this model. -/
inductive Field where
  | version (f : Format)
  | int (n : Int)
  | real (x : ℚ)
  deriving DecidableEq, Repr

/-- Modelled from the spec: the entry of one pair in a frame (spec section 4.3): "endpoint
ids, interaction-type tag, and one scalar or three vector components". -/
structure PairForce (V : Type) where
  i : Int
  j : Int
  type : InteractionType
  force : V
  deriving DecidableEq, Repr

/-- Modelled from the spec: one frame (spec section 3): "a snapshot index plus, for every
in-scope pair, its aggregated value". -/
structure Frame (V : Type) where
  index : Int
  pairs : List (PairForce V)
  deriving DecidableEq, Repr

/-- The fields of one pair: endpoint ids, interaction-type tag, components. -/
def write_pair {V : Type} [ForceValue V] (p : PairForce V) : List Field :=
  [Field.int p.i, Field.int p.j, Field.int p.type] ++ (ForceValue.components p.force).map Field.real

/-- The header of one frame: frame index, pair count. -/
def write_header {V : Type} (fr : Frame V) : List Field :=
  [Field.int fr.index, Field.int fr.pairs.length]

/-- Modelled from the spec: `write(frames, format)` for the binary format (spec section 4.3):
the version marker, then per frame the frame index, the pair count and the fields of each
pair, as one stream of fields. -/
def write_binary {V : Type} [ForceValue V] (frames : List (Frame V)) : List Field :=
  Field.version Format.BINARY ::
    (frames.map (fun fr => write_header fr ++ (fr.pairs.map write_pair).flatten)).flatten

/-- Modelled from the spec: `write(frames, format)` for the ASCII format (spec section 4.3):
a line with the version marker, then per frame a line with the frame index and the pair count
and one line per pair. -/
def write_ascii {V : Type} [ForceValue V] (frames : List (Frame V)) : List (List Field) :=
  [Field.version Format.ASCII] ::
    (frames.map (fun fr => write_header fr :: fr.pairs.map write_pair)).flatten

/-- Read `n` real fields from the front of a stream. -/
def read_reals : Nat → List Field → Option (List ℚ × List Field)
  | 0, fields => some ([], fields)
  | n + 1, Field.real x :: fields => do
    let (xs, rest) ← read_reals n fields
    pure (x :: xs, rest)
  | _ + 1, _ => none

/-- Read one pair from the front of a stream: two endpoint ids, a non-negative interaction-type
tag and the components of the value. -/
def read_pair {V : Type} [ForceValue V] : List Field → Option (PairForce V × List Field)
  | Field.int i :: Field.int j :: Field.int t :: fields =>
    if 0 ≤ t then do
      let (xs, rest) ← read_reals (ForceValue.arity V) fields
      let v ← ForceValue.of_components xs
      pure (⟨i, j, t.toNat, v⟩, rest)
    else none
  | _ => none

/-- Read `n` pairs from the front of a stream. -/
def read_pairs {V : Type} [ForceValue V] : Nat → List Field → Option (List (PairForce V) × List Field)
  | 0, fields => some ([], fields)
  | n + 1, fields => do
    let (p, rest) ← read_pair fields
    let (ps, rest2) ← read_pairs n rest
    pure (p :: ps, rest2)

/-- Read frames until the stream ends: frame index, pair count, that many pairs. Every frame
consumes fields, and `fuel` bounds the number of frames. -/
def read_frames {V : Type} [ForceValue V] : Nat → List Field → Option (List (Frame V))
  | _, [] => some []
  | fuel + 1, Field.int index :: Field.int count :: fields =>
    if 0 ≤ count then do
      let (ps, rest) ← read_pairs count.toNat fields
      let frames ← read_frames fuel rest
      pure (⟨index, ps⟩ :: frames)
    else none
  | _, _ => none

/-- Modelled from the spec: `read(path) → frames` for the binary format (spec section 4.3): the
version marker, then frames to the end of the stream; a stream that does not have this layout
is a file format error (`none`). -/
def read_binary {V : Type} [ForceValue V] : List Field → Option (List (Frame V))
  | Field.version Format.BINARY :: fields => read_frames fields.length fields
  | _ => none

/-- Read `n` pair lines from the front of a list of lines; every line is exactly one pair. -/
def read_pair_lines {V : Type} [ForceValue V] :
    Nat → List (List Field) → Option (List (PairForce V) × List (List Field))
  | 0, lines => some ([], lines)
  | n + 1, line :: lines => do
    let (p, rest) ← read_pair line
    if rest = [] then do
      let (ps, lines2) ← read_pair_lines n lines
      pure (p :: ps, lines2)
    else none
  | _ + 1, [] => none

/-- Read frames until the lines end: a header line with frame index and pair count, then that
many pair lines. -/
def read_frame_lines {V : Type} [ForceValue V] : Nat → List (List Field) → Option (List (Frame V))
  | _, [] => some []
  | fuel + 1, [Field.int index, Field.int count] :: lines =>
    if 0 ≤ count then do
      let (ps, rest) ← read_pair_lines count.toNat lines
      let frames ← read_frame_lines fuel rest
      pure (⟨index, ps⟩ :: frames)
    else none
  | _, _ => none

/-- Modelled from the spec: `read(path) → frames` for the ASCII format (spec section 4.3): the
line of the version marker, then frames to the last line; lines that do not have this layout
are a file format error (`none`). -/
def read_ascii {V : Type} [ForceValue V] : List (List Field) → Option (List (Frame V))
  | [Field.version Format.ASCII] :: lines => read_frame_lines lines.length lines
  | _ => none

/-- Two frames of scalar forces; the first holds the three forces of the scenario of spec
section 8, the second is empty. -/
def frames2 : List (Frame ℚ) :=
  [⟨0, [⟨0, 1, 1, 5⟩, ⟨1, 2, 1, 3⟩, ⟨0, 2, 2, 1⟩]⟩, ⟨1, []⟩]

/-- The components of a value type are `arity` many and rebuild the value. -/
def lawful_components (V : Type) [ForceValue V] : Prop :=
  (∀ v : V, (ForceValue.components v).length = ForceValue.arity V) ∧
  (∀ v : V, ForceValue.of_components (ForceValue.components v) = some v)

/-- Two contributions to the in-scope pair (0, 1) of the three-atom settings whose magnitude
is below the default threshold `1e-10`. -/
def records_small : List (InteractionRecord ℚ) :=
  [⟨0, 1, some 1, 1 / 10 ^ 11⟩, ⟨0, 1, some 2, -1 / 10 ^ 12⟩]

/-! ### Averaging -/

/-- Divide the value of every entry of an association list by `divisor`. -/
def divide_entries {K : Type} (divisor : ℚ) (l : List (K × ℚ)) : List (K × ℚ) :=
  l.map (fun e => (e.1, e.2 / divisor))

/-- Modelled from the spec: `DistributedForces::scalar_real_divide(real divisor)`, declared at
DistributedForces.h lines 41-42 ("Divide all scalar forces by the divisor") and defined outside
the sources; `divideBy(divisor)` of spec section 4.2, which "scales every accumulator": the
accumulator of every pair and every per-type slot, over exact rationals. -/
def DistributedForces.scalar_real_divide (st : DistributedForces ℚ) (divisor : ℚ) :
    DistributedForces ℚ :=
  let summed := divide_entries divisor st.summed
  let detailed := st.detailed.map (fun e => (e.1, divide_entries divisor e.2))
  { st with summed := summed, detailed := detailed }

/-- Entry-by-entry sum of two association lists of the same layout. -/
def add_entries {K : Type} (a b : List (K × ℚ)) : List (K × ℚ) :=
  List.zipWith (fun x y => (x.1, x.2 + y.2)) a b

/-- Modelled from the spec: the sum of two frames of the same layout, held as stores: "a simple
elementwise sum over per-entity accumulators" (spec section 5), the summing of "per-entity
scalar values" of spec section 4.5. The code that sums frames is not among the sources. -/
def DistributedForces.add_frame (a b : DistributedForces ℚ) : DistributedForces ℚ :=
  let summed := add_entries a.summed b.summed
  let detailed := List.zipWith (fun x y => (x.1, add_entries x.2 y.2)) a.detailed b.detailed
  { a with summed := summed, detailed := detailed }

/-- Modelled from the spec: the frame selection "average N" (spec sections 4.4 and 4.5): "sums
the first N frames' per-entity scalar values and divides by N". Without a first frame there is
nothing to average. The code of the analysis tools is not among the sources. -/
def average (n : Nat) (frames : List (DistributedForces ℚ)) : Option (DistributedForces ℚ) :=
  match frames.take n with
  | [] => none
  | first :: rest => some ((rest.foldl DistributedForces.add_frame first).scalar_real_divide n)

/-- The store `st` with every scalar force multiplied by `k`. -/
def DistributedForces.scale (st : DistributedForces ℚ) (k : ℚ) : DistributedForces ℚ :=
  let summed := st.summed.map (fun e => (e.1, k * e.2))
  let detailed := st.detailed.map (fun e => (e.1, e.2.map (fun sl => (sl.1, k * sl.2))))
  { st with summed := summed, detailed := detailed }

/-- A frame held as a store: the pair (0, 1) with summed force 7 and per-type slots 4 and 3. -/
def store7 : DistributedForces ℚ :=
  ⟨settings3, [((0, 1), 7)], [((0, 1), [(1, 4), (2, 3)])], 0⟩

/-! ### Frame selection -/

/-- The loop of "skip N": `wait` frames are passed over before the next one is emitted, and
after an emitted frame `n - 1` frames are passed over. -/
def skip_loop {α : Type} (n : Nat) : Nat → List α → List α
  | _, [] => []
  | 0, frame :: frames => frame :: skip_loop n (n - 1) frames
  | wait + 1, _ :: frames => skip_loop n wait frames

/-- Modelled from the spec: the frame selection "skip N" (spec section 4.4: "sample every Nth
frame"; section 4.5: "emits one output row per Nth frame unaggregated"), starting with the
first frame. The code of the analysis tools is not among the sources. -/
def select_skip {α : Type} (n : Nat) (frames : List α) : List α :=
  skip_loop n 0 frames

/-! ### Shortest-path analyzer -/

/-- Modelled from the spec: the weight of the edge of a pair: "stronger force ⇒ shorter
effective distance", with "weight = 1/force" (spec sections 4.4 and 8) taken on the magnitude
of the force; the cap for near-zero forces is not specified and not modelled. -/
def edge_weight (force : ℚ) : ℚ :=
  1 / |force|

/-- The neighbours of node `u` in the undirected graph of a frame, each with the weight of the
edge that leads to it, in the order of the pairs of the frame. -/
def neighbours (pairs : List (PairForce ℚ)) (u : Int) : List (Int × ℚ) :=
  pairs.filterMap (fun p =>
    if p.i = u then some (p.j, edge_weight p.force)
    else if p.j = u then some (p.i, edge_weight p.force)
    else none)

/-- The simple paths that extend the path `visited` (held in reverse, ending in `u`, of total
weight `w`) to `dest`, in the order of the depth-first search; a simple path has at most as
many edges as `fuel`. -/
def simple_paths (pairs : List (PairForce ℚ)) (dest : Int) :
    Nat → List Int → Int → ℚ → List (List Int × ℚ)
  | 0, _, _, _ => []
  | fuel + 1, visited, u, w =>
    if u = dest then [(visited.reverse, w)]
    else (neighbours pairs u).flatMap (fun e =>
      if e.1 ∈ visited then []
      else simple_paths pairs dest fuel (e.1 :: visited) e.1 (w + e.2))

/-- Modelled from the spec: the shortest-path analyzer on one frame (spec section 4.4 and
glossary): "the k lowest-total-weight simple paths between two graph nodes", "each as an
ordered node sequence with total path weight; ties broken by path discovered first under a
deterministic node/edge ordering": the simple paths from `source` to `dest` in order of
discovery, sorted by weight with a stable sort, the first `k` of them. The code of the
analysis tool is not among the sources. -/
def shortest_paths (frame : Frame ℚ) (source dest : Int) (k : Nat) : List (List Int × ℚ) :=
  ((simple_paths frame.pairs dest (frame.pairs.length + 1) [source] source 0).insertionSort
    (fun a b => a.2 ≤ b.2)).take k

/-- The frame of the scenario of spec section 8: forces (0,1) = 5, (1,2) = 3, (0,2) = 1. -/
def frame_scenario : Frame ℚ :=
  ⟨0, [⟨0, 1, 1, 5⟩, ⟨1, 2, 1, 3⟩, ⟨0, 2, 1, 1⟩]⟩

/-! ### Scope predicates, self pairs -/

/-- The two group masks are disjoint: no covered atom is in group 1 and in group 2 (spec
section 3, GroupMembership: "two disjoint boolean masks"). -/
def FDASettings.disjoint_masks (s : FDASettings) : Prop :=
  ∀ k, s.covered k → ¬ (s.in_group1 k = true ∧ s.in_group2 k = true)

/-- A settings object over two atoms, both in group 1 and in group 2. The other members are
those of the default constructor. -/
def settings_both : FDASettings :=
  { FDASettings.default_constructor ⟨false, false⟩ with
    sys_in_group1 := [1, 1], sys_in_group2 := [1, 1], syslen_atoms := 2 }

end fda

namespace gmx.test

/-! ### Mock analysis module (`src/gromacs/analysisdata/tests/mock_module.cpp`) -/

/-- The accessors of `AnalysisDataTestInput` that the mock module reads. The class is declared
in `datatest.h`, which is not among the sources; its frames are named by their row. -/
structure AnalysisDataTestInput where
  columnCount : Int
  isMultipoint : Bool
  frameCount : Int
  deriving DecidableEq, Repr

/-- The accessors of the data object `AbstractAnalysisData *source` that the mock module reads
while it sets up its expectations. The class is declared in `analysisdata.h`, which is not
among the sources. -/
structure AbstractAnalysisData where
  columnCount : Int
  isMultipoint : Bool
  deriving DecidableEq, Repr

/-- The methods of `AnalysisDataModuleInterface` that the mock module expects calls of. -/
inductive Call where
  | dataStarted
  | frameStarted
  | pointsAdded
  | frameFinished
  | dataFinished
  deriving DecidableEq, Repr

/-- The functor that an expectation invokes (`WillOnce(Invoke(...))`), with its constructor
arguments; a frame of the test input is named by its row. -/
inductive Action where
  | none
  | DataStorageRequester (count : Int)
  | StaticDataFrameHeaderChecker (row : Int)
  | StaticDataPointsStorageChecker (frameIndex : Int) (storageCount : Int)
  | StaticDataPointsChecker (row : Int) (pointSet : Int) (firstcol : Int) (n : Int)
  deriving DecidableEq, Repr

/-- One `EXPECT_CALL`: the expected method and the functor invoked on the call. -/
structure Expectation where
  call : Call
  action : Action
  deriving DecidableEq, Repr

/-- The state of a `MockAnalysisModule` that the setup methods change: `impl_->flags_` and the
expectations set so far, which `::testing::InSequence` orders. -/
structure MockAnalysisModule where
  flags : Nat
  expectations : List Expectation
  deriving DecidableEq, Repr

/-- The failure of a `GMX_RELEASE_ASSERT`, named by its message. -/
inductive ReleaseAssert where
  | mismatching_data_column_count
  | storage_testing_not_implemented_for_multipoint_data
  | out_of_range_columns
  deriving DecidableEq, Repr

/-- The body of the loop over the rows in `setupStaticStorageCheck`, lines 430-439:
`remaining` more rows from `row` on, each expecting `frameStarted`, `pointsAdded` and
`frameFinished`. -/
def storage_rows (storageCount : Int) : Nat → Int → List Expectation
  | 0, _ => []
  | remaining + 1, row =>
    ⟨Call.frameStarted, Action.StaticDataFrameHeaderChecker row⟩ ::
    ⟨Call.pointsAdded, Action.StaticDataPointsStorageChecker row storageCount⟩ ::
    ⟨Call.frameFinished, Action.none⟩ ::
    storage_rows storageCount remaining (row + 1)

/-- `MockAnalysisModule::setupStaticStorageCheck`, lines 413-441. The two release assertions
abort; otherwise `efAllowMulticolumn` is or-ed into the flags and the expectations are set in
sequence. The value of the flag constant `efAllowMulticolumn` is declared outside the sources
and is a parameter. -/
def MockAnalysisModule.setupStaticStorageCheck (efAllowMulticolumn : Nat)
    (m : MockAnalysisModule) (data : AnalysisDataTestInput) (storageCount : Int)
    (source : AbstractAnalysisData) : Except ReleaseAssert MockAnalysisModule :=
  if data.columnCount ≠ source.columnCount then
    .error ReleaseAssert.mismatching_data_column_count
  else if ¬ (!data.isMultipoint && !source.isMultipoint) = true then
    .error ReleaseAssert.storage_testing_not_implemented_for_multipoint_data
  else
    let expected :=
      ⟨Call.dataStarted, Action.DataStorageRequester storageCount⟩ ::
        (storage_rows storageCount data.frameCount.toNat 0 ++ [⟨Call.dataFinished, Action.none⟩])
    .ok ⟨m.flags ||| efAllowMulticolumn, m.expectations ++ expected⟩

/-- What `StaticDataPointsStorageChecker::operator()` does, in order: the checks of the current
point set against `data_->frame(frameIndex_)` (lines 295-298), and in the loop a request
`source_->getDataWErr(index, ...)` and a `checkFrame(index, ..., data_->frame(reference))`. -/
inductive StorageEvent where
  | checkCurrent (frameIndex : Int)
  | getDataWErr (index : Int)
  | checkFrame (index : Int) (reference : Int)
  deriving DecidableEq, Repr

/-- The loop of `StaticDataPointsStorageChecker::operator()`, lines 299-318, from the value
`past` of the loop variable on. `stored index` tells whether `source_->getDataWErr(index, ...)`
succeeds; a failed `ASSERT_TRUE` returns from the function. The loop runs while
`(storageCount_ < 0 || past <= storageCount_) && past <= frameIndex_`; `none` stands for a
loop that is still running when `fuel` iterations are used up. -/
def storage_loop (stored : Int → Bool) (frameIndex storageCount : Int) :
    Nat → Int → Option (List StorageEvent)
  | 0, past =>
    if (storageCount < 0 ∨ past ≤ storageCount) ∧ past ≤ frameIndex then none else some []
  | fuel + 1, past =>
    if (storageCount < 0 ∨ past ≤ storageCount) ∧ past ≤ frameIndex then
      let index := frameIndex - past
      if stored index then
        let first := [StorageEvent.getDataWErr index, StorageEvent.checkFrame index index]
        if past > 0 then
          if stored (-past) then
            (storage_loop stored frameIndex storageCount fuel (past + 1)).map (fun rest =>
              first ++ [StorageEvent.getDataWErr (-past), StorageEvent.checkFrame index index]
                ++ rest)
          else some (first ++ [StorageEvent.getDataWErr (-past)])
        else
          (storage_loop stored frameIndex storageCount fuel (past + 1)).map (fun rest =>
            first ++ rest)
      else some [StorageEvent.getDataWErr index]
    else some []

/-- `StaticDataPointsStorageChecker::operator()`, lines 292-319, for a checker constructed
with `frameIndex` and `storageCount`: the checks of the current point set, then the loop from
`past = 0`. The loop ends after at most `frameIndex + 1` iterations. -/
def StaticDataPointsStorageChecker (stored : Int → Bool) (frameIndex storageCount : Int) :
    Option (List StorageEvent) :=
  (storage_loop stored frameIndex storageCount (frameIndex.toNat + 1) 0).map (fun rest =>
    StorageEvent.checkCurrent frameIndex :: rest)

/-- The events of the iteration `past` of the loop when every request succeeds: the frame
`frameIndex - past` is read by its absolute index and checked, and for `past > 0` read again
by the relative index `-past` and checked against the same reference frame. -/
def iteration (frameIndex : Int) (past : Nat) : List StorageEvent :=
  [StorageEvent.getDataWErr (frameIndex - past),
    StorageEvent.checkFrame (frameIndex - past) (frameIndex - past)] ++
  (if 0 < past then
    [StorageEvent.getDataWErr (-(past : Int)),
      StorageEvent.checkFrame (frameIndex - past) (frameIndex - past)]
  else [])

/-- The largest value of `past` that the loop reaches: `frameIndex` when the storage count is
negative, and the smaller of the storage count and `frameIndex` otherwise. -/
def last_past (frameIndex storageCount : Int) : Nat :=
  (if storageCount < 0 then frameIndex else min storageCount frameIndex).toNat

/-- A source with storage for one past frame, at frame 3: it holds the frames of absolute
index 3 and 2 and of relative index -1, and no other. -/
def stored_limited (index : Int) : Bool :=
  decide (index = 3 ∨ index = 2 ∨ index = -1)

/-! ### Column checks of the mock analysis module -/

/-- The accessors of a point set `AnalysisDataPointSetRef` that the points checker reads to
choose the reference columns. The class is declared in `dataframe.h`, which is not among the
sources. -/
structure AnalysisDataPointSetRef where
  firstColumn : Int
  columnCount : Int
  deriving DecidableEq, Repr

/-- What the points checker does, in order: a failed `EXPECT_EQ(expected, actual)`, the
`checkHeader` of the frame, and a comparison
`EXPECT_FLOAT_EQ(refPoints.y(referenceColumn), points.y(column))`. -/
inductive PointsEvent where
  | expect_eq_failed (expected : Int) (actual : Int)
  | checkHeader
  | compare (referenceColumn : Int) (column : Int)
  deriving DecidableEq, Repr

/-- The largest value of an `int`, `2^31 - 1`. -/
def INT_MAX : Int :=
  2 ^ 31 - 1

/-- The sum of two `int`s as the machine adds them: in 32 bits, two's complement. A sum inside
the range of `int` is the sum of the integers; a sum outside it wraps around. -/
def int_add (a b : Int) : Int :=
  (a + b + 2 ^ 31) % 2 ^ 32 - 2 ^ 31

/-- The loop of `checkPoints(points, refPoints, columnOffset)`, lines 126-132, from the value
`i` of the loop variable on, with `remaining` iterations to go: column `i` of the point set is
compared with the reference column `points.firstColumn() + columnOffset + i`, a sum of
`int`s. -/
def checkPoints_loop (firstColumn columnOffset : Int) : Nat → Int → List PointsEvent
  | 0, _ => []
  | remaining + 1, i =>
    PointsEvent.compare (int_add (int_add firstColumn columnOffset) i) i ::
      checkPoints_loop firstColumn columnOffset remaining (i + 1)

/-- `checkPoints(points, refPoints, columnOffset)`, lines 122-133: the loop runs for
`i = 0, ..., points.columnCount() - 1`. -/
def checkPoints (points : AnalysisDataPointSetRef) (columnOffset : Int) : List PointsEvent :=
  checkPoints_loop points.firstColumn columnOffset points.columnCount.toNat 0

/-- `StaticDataPointsChecker::operator()`, lines 212-219, for a checker constructed with
`firstcol` and `n`: the two `EXPECT_EQ`, which record a failure and go on, `checkHeader`, and
`checkPoints(points, *points_, firstcol_)`. -/
def StaticDataPointsChecker (firstcol n : Int) (points : AnalysisDataPointSetRef) :
    List PointsEvent :=
  (if 0 = points.firstColumn then [] else [PointsEvent.expect_eq_failed 0 points.firstColumn])
    ++ (if n = points.columnCount then []
      else [PointsEvent.expect_eq_failed n points.columnCount])
    ++ PointsEvent.checkHeader :: checkPoints points firstcol

/-- The expectations of the point sets `ps, ps + 1, ...` of one row in
`setupStaticColumnCheck`, lines 401-406, `remaining` of them. -/
def column_point_sets (row firstcol n : Int) : Nat → Int → List Expectation
  | 0, _ => []
  | remaining + 1, ps =>
    ⟨Call.pointsAdded, Action.StaticDataPointsChecker row ps firstcol n⟩ ::
      column_point_sets row firstcol n remaining (ps + 1)

/-- The body of the loop over the rows in `setupStaticColumnCheck`, lines 396-408:
`remaining` more rows from `row` on, each expecting `frameStarted`, one `pointsAdded` per point
set of the frame and `frameFinished`. `pointSetCount row` is `data.frame(row).pointSetCount()`. -/
def column_rows (pointSetCount : Int → Int) (firstcol n : Int) : Nat → Int → List Expectation
  | 0, _ => []
  | remaining + 1, row =>
    ⟨Call.frameStarted, Action.StaticDataFrameHeaderChecker row⟩ ::
      (column_point_sets row firstcol n (pointSetCount row).toNat 0 ++
        ⟨Call.frameFinished, Action.none⟩ ::
          column_rows pointSetCount firstcol n remaining (row + 1))

/-- `MockAnalysisModule::setupStaticColumnCheck`, lines 380-410. The two release assertions
abort; otherwise `efAllowMulticolumn | efAllowMultipoint` is or-ed into the flags and the
expectations are set in sequence. The values of the two flag constants are declared outside
the sources and are parameters; `pointSetCount` gives the number of point sets of each frame
of the test input. The sum `firstcol + n` of the second assertion is a sum of `int`s. -/
def MockAnalysisModule.setupStaticColumnCheck (efAllowMulticolumn efAllowMultipoint : Nat)
    (m : MockAnalysisModule) (data : AnalysisDataTestInput) (pointSetCount : Int → Int)
    (firstcol n : Int) (source : AbstractAnalysisData) :
    Except ReleaseAssert MockAnalysisModule :=
  if data.columnCount ≠ source.columnCount then
    .error ReleaseAssert.mismatching_data_column_count
  else if ¬ (firstcol ≥ 0 ∧ n > 0 ∧ int_add firstcol n ≤ data.columnCount) then
    .error ReleaseAssert.out_of_range_columns
  else
    let expected :=
      ⟨Call.dataStarted, Action.none⟩ ::
        (column_rows pointSetCount firstcol n data.frameCount.toNat 0
          ++ [⟨Call.dataFinished, Action.none⟩])
    .ok ⟨m.flags ||| (efAllowMulticolumn ||| efAllowMultipoint), m.expectations ++ expected⟩

/-! ### Reference checks of the mock analysis module (`MockAnalysisModule::Impl`) -/

/-- The accessors of `AnalysisDataFrameHeader` that `startReferenceFrame` reads: `index()` and
`x()`. The class is declared in `dataframe.h`, which is not among the sources. -/
structure AnalysisDataFrameHeader where
  index : Int
  x : ℚ
  deriving DecidableEq, Repr

/-- A check against the reference data that `Impl` passes on to a `TestReferenceChecker`:
`checkCompound("DataFrame", "Frame<frame>")` of the root checker, and `checkReal(x, "X")` and
`checkSequenceArray(..., "Y")` of the frame checker. -/
inductive ReferenceCheck where
  | checkCompound (frame : Int)
  | checkReal (x : ℚ)
  | checkSequenceArray (y : List ℚ)
  deriving DecidableEq, Repr

/-- A failed expectation of the three methods of `Impl`: `EXPECT_TRUE(frameChecker_.get() ==
NULL)` (line 71), `EXPECT_EQ(frameIndex_, header.index())` (line 72) and
`EXPECT_TRUE(frameChecker_.get() != NULL)` (lines 84 and 102). -/
inductive ExpectFailure where
  | frameChecker_not_null
  | frameIndex_differs (frameIndex : Int) (headerIndex : Int)
  | frameChecker_null
  deriving DecidableEq, Repr

/-- The members of `MockAnalysisModule::Impl`: `flags_`, `frameIndex_`, and `frameChecker_`,
which is null (`none`) or the checker of the compound of a frame; `checked` lists the checks
passed on to the reference data so far. The root checker is set by `setupReferenceCheck`
before any of the three methods is invoked. Frame counts of the data module are `int`s, and
`frameIndex_` stays in their range. -/
structure Impl where
  flags_ : Nat
  frameIndex_ : Int
  frameChecker_ : Option Int
  checked : List ReferenceCheck
  deriving DecidableEq, Repr

/-- The constructor `MockAnalysisModule::Impl::Impl(int flags)`, lines 62-65: `frameIndex_` is
0 and the frame checker is null. -/
def Impl.constructor (flags : Nat) : Impl :=
  ⟨flags, 0, none, []⟩

/-- `MockAnalysisModule::Impl::startReferenceFrame`, lines 68-78: two expectations, which
record a failure and go on; then the frame checker is reset to the checker of the compound
`Frame<frameIndex_>`, `frameIndex_` is incremented and `header.x()` is checked. -/
def Impl.startReferenceFrame (st : Impl) (header : AnalysisDataFrameHeader) :
    Impl × List ExpectFailure :=
  let failed1 := if st.frameChecker_ = none then [] else [ExpectFailure.frameChecker_not_null]
  let failed2 := if st.frameIndex_ = header.index then []
    else [ExpectFailure.frameIndex_differs st.frameIndex_ header.index]
  let checked := st.checked ++
    [ReferenceCheck.checkCompound st.frameIndex_, ReferenceCheck.checkReal header.x]
  (⟨st.flags_, st.frameIndex_ + 1, some st.frameIndex_, checked⟩, failed1 ++ failed2)

/-- `MockAnalysisModule::Impl::checkReferencePoints`, lines 81-96, for a point set with the
values `y`: the expectation fails on a null frame checker, and otherwise the values are
checked as the sequence `Y`. -/
def Impl.checkReferencePoints (st : Impl) (y : List ℚ) : Impl × List ExpectFailure :=
  match st.frameChecker_ with
  | none => (st, [ExpectFailure.frameChecker_null])
  | some _ =>
    (⟨st.flags_, st.frameIndex_, st.frameChecker_,
      st.checked ++ [ReferenceCheck.checkSequenceArray y]⟩, [])

/-- `MockAnalysisModule::Impl::finishReferenceFrame`, lines 99-104: the expectation fails on a
null frame checker; the frame checker is reset to null. -/
def Impl.finishReferenceFrame (st : Impl) : Impl × List ExpectFailure :=
  let failed := if st.frameChecker_ = none then [ExpectFailure.frameChecker_null] else []
  (⟨st.flags_, st.frameIndex_, none, st.checked⟩, failed)

/-- One call of a method of `Impl`, as `setupReferenceCheck` (lines 461-469) has them invoked
on `frameStarted`, `pointsAdded` and `frameFinished`. -/
inductive ImplCall where
  | startReferenceFrame (header : AnalysisDataFrameHeader)
  | checkReferencePoints (y : List ℚ)
  | finishReferenceFrame
  deriving DecidableEq, Repr

/-- The call `c` on the state `st`. -/
def Impl.call (st : Impl) : ImplCall → Impl × List ExpectFailure
  | ImplCall.startReferenceFrame header => st.startReferenceFrame header
  | ImplCall.checkReferencePoints y => st.checkReferencePoints y
  | ImplCall.finishReferenceFrame => st.finishReferenceFrame

/-- A sequence of calls on the state `st`: the final state and the expectation failures
raised, in order. -/
def Impl.run (st : Impl) : List ImplCall → Impl × List ExpectFailure
  | [] => (st, [])
  | c :: cs =>
    let first := st.call c
    let rest := first.1.run cs
    (rest.1, first.2 ++ rest.2)

/-- The call starts a frame. -/
def ImplCall.is_start : ImplCall → Bool
  | ImplCall.startReferenceFrame _ => true
  | _ => false

/-- The call finishes a frame. -/
def ImplCall.is_finish : ImplCall → Bool
  | ImplCall.finishReferenceFrame => true
  | _ => false

/-- The header index that a call carries, for a call that starts a frame. -/
def ImplCall.header_index : ImplCall → Option Int
  | ImplCall.startReferenceFrame header => some header.index
  | _ => none

/-- The number of frames started in a sequence of calls. -/
def starts (calls : List ImplCall) : Nat :=
  calls.countP ImplCall.is_start

/-- The number of frames finished in a sequence of calls. -/
def finishes (calls : List ImplCall) : Nat :=
  calls.countP ImplCall.is_finish

/-- The number of frames open in a state: 1 with a frame checker, 0 with a null one. -/
def Impl.open_frames (st : Impl) : Nat :=
  if st.frameChecker_ = none then 0 else 1

/-- Two frames, the first with two point sets and the second with one, then a third frame
started. -/
def calls_three : List ImplCall :=
  [ImplCall.startReferenceFrame ⟨0, 0⟩, ImplCall.checkReferencePoints [1, 2],
    ImplCall.checkReferencePoints [3], ImplCall.finishReferenceFrame,
    ImplCall.startReferenceFrame ⟨1, 1 / 2⟩, ImplCall.checkReferencePoints [4],
    ImplCall.finishReferenceFrame, ImplCall.startReferenceFrame ⟨2, 1⟩]

end gmx.test

/-! ## Theorems -/

namespace fda

theorem index_of_lt (v : List Int) (i : Int) (h0 : 0 ≤ i) (h1 : i < v.length) :
    ∃ c, index v i = some c := by
  have h : i.toNat < v.length := by omega
  exact ⟨v[i.toNat], by simp [index, h0, List.getElem?_eq_getElem h]⟩

/-- C1: for a settings object whose two group masks cover the atom indices `i` and `j`,
`atoms_in_groups(i, j)` returns, and returns true exactly when atom `i` is in group 1 and
atom `j` in group 2, or atom `j` is in group 1 and atom `i` in group 2. -/
theorem atoms_in_groups_iff (s : FDASettings) (i j : Int)
    (hi : s.covered i) (hj : s.covered j) :
    ∃ b, s.atoms_in_groups i j = some b ∧
      (b = true ↔ (s.in_group1 i = true ∧ s.in_group2 j = true) ∨
        (s.in_group1 j = true ∧ s.in_group2 i = true)) := by
  obtain ⟨a1, ha1⟩ := index_of_lt s.sys_in_group1 i hi.1 hi.2.1
  obtain ⟨a2, ha2⟩ := index_of_lt s.sys_in_group2 i hi.1 hi.2.2
  obtain ⟨b1, hb1⟩ := index_of_lt s.sys_in_group1 j hj.1 hj.2.1
  obtain ⟨b2, hb2⟩ := index_of_lt s.sys_in_group2 j hj.1 hj.2.2
  by_cases h1 : a1 = 0 <;> by_cases h2 : a2 = 0 <;> by_cases h3 : b1 = 0 <;>
    by_cases h4 : b2 = 0 <;>
    simp [FDASettings.atoms_in_groups, FDASettings.one_in_each, FDASettings.in_group1,
      FDASettings.in_group2, ha1, ha2, hb1, hb2, h1, h2, h3, h4]

/-- Witness of C1 on the three-atom settings: atoms 0 and 1 form an in-scope pair. -/
theorem atoms_in_groups_iff_witness :
    settings3.covered 0 ∧ settings3.covered 1 ∧
    ∃ b, settings3.atoms_in_groups 0 1 = some b ∧
      (b = true ↔ (settings3.in_group1 0 = true ∧ settings3.in_group2 1 = true) ∨
        (settings3.in_group1 1 = true ∧ settings3.in_group2 0 = true)) :=
  ⟨by decide, by decide, atoms_in_groups_iff settings3 0 1 (by decide) (by decide)⟩

/-- C2: for every atom index `i` covered by the group masks, `atom_in_groups(i)` returns, and
returns true exactly when atom `i` is in group 1 or in group 2. -/
theorem atom_in_groups_iff (s : FDASettings) (i : Int) (hi : s.covered i) :
    ∃ b, s.atom_in_groups i = some b ∧
      (b = true ↔ s.in_group1 i = true ∨ s.in_group2 i = true) := by
  obtain ⟨a1, ha1⟩ := index_of_lt s.sys_in_group1 i hi.1 hi.2.1
  obtain ⟨a2, ha2⟩ := index_of_lt s.sys_in_group2 i hi.1 hi.2.2
  by_cases h1 : a1 = 0 <;> by_cases h2 : a2 = 0 <;>
    simp [FDASettings.atom_in_groups, FDASettings.in_group1, FDASettings.in_group2,
      ha1, ha2, h1, h2]

/-- Witness of C2 on the three-atom settings: atom 2 is covered and in neither group. -/
theorem atom_in_groups_iff_witness :
    settings3.covered 2 ∧
    ∃ b, settings3.atom_in_groups 2 = some b ∧
      (b = true ↔ settings3.in_group1 2 = true ∨ settings3.in_group2 2 = true) :=
  ⟨by decide, atom_in_groups_iff settings3 2 (by decide)⟩

/-- C4, evaluated: the default constructor leaves `ignore_missing_potentials` to the storage;
constructed in storage that holds a non-zero byte there, the member reads true. -/
theorem default_ignore_missing_potentials_uninitialized :
    (FDASettings.default_constructor ⟨false, true⟩).ignore_missing_potentials = true ∧
    (FDASettings.default_constructor ⟨false, false⟩).ignore_missing_potentials = false := by
  decide

/-- C5, evaluated: the default constructor leaves `normalize_psr` to the storage; constructed
in storage that holds a non-zero byte there, the member reads true. -/
theorem default_normalize_psr_uninitialized :
    (FDASettings.default_constructor ⟨true, false⟩).normalize_psr = true ∧
    (FDASettings.default_constructor ⟨false, false⟩).normalize_psr = false := by
  decide

/-- C6: for each of the eight result types, `compatibility_mode(r)` is true exactly when `r`
is `COMPAT_BIN` or `COMPAT_ASCII`. -/
theorem compatibility_mode_iff (s : FDASettings) (r : ResultType) :
    s.compatibility_mode r = true ↔ r = ResultType.COMPAT_BIN ∨ r = ResultType.COMPAT_ASCII := by
  cases r <;> simp [FDASettings.compatibility_mode]

/-- C7: for each of the eight result types, `stress_mode(r)` is true exactly when `r` is
`PUNCTUAL_STRESS`, `VIRIAL_STRESS` or `VIRIAL_STRESS_VON_MISES`. -/
theorem stress_mode_iff (s : FDASettings) (r : ResultType) :
    s.stress_mode r = true ↔ r = ResultType.PUNCTUAL_STRESS ∨ r = ResultType.VIRIAL_STRESS ∨
      r = ResultType.VIRIAL_STRESS_VON_MISES := by
  cases r <;> simp [FDASettings.stress_mode]

/-- C8, refuted as stated: `PF_or_PS_mode` is true for `PUNCTUAL_STRESS`, which is neither
pairwise-forces-vector nor pairwise-forces-scalar. -/
theorem PF_or_PS_mode_not_only_pairwise :
    ¬ (settings3.PF_or_PS_mode ResultType.PUNCTUAL_STRESS = true ↔
        ResultType.PUNCTUAL_STRESS = ResultType.PAIRWISE_FORCES_VECTOR ∨
        ResultType.PUNCTUAL_STRESS = ResultType.PAIRWISE_FORCES_SCALAR) := by
  decide

/-- C8, amended: `PF_or_PS_mode(r)` is true exactly when `r` is `PAIRWISE_FORCES_VECTOR`,
`PAIRWISE_FORCES_SCALAR` or `PUNCTUAL_STRESS`. -/
theorem PF_or_PS_mode_iff (s : FDASettings) (r : ResultType) :
    s.PF_or_PS_mode r = true ↔ r = ResultType.PAIRWISE_FORCES_VECTOR ∨
      r = ResultType.PAIRWISE_FORCES_SCALAR ∨ r = ResultType.PUNCTUAL_STRESS := by
  cases r <;> simp [FDASettings.PF_or_PS_mode]

/-! ### Pairwise force store -/

theorem entry_upsert {K W : Type} [DecidableEq K] (k q : K) (f : Option W → W)
    (l : List (K × W)) :
    entry q (upsert k f l) = if q = k then some (f (entry k l)) else entry q l := by
  induction l with
  | nil =>
    by_cases h : q = k
    · simp [upsert, entry, h]
    · have h2 : ¬ k = q := fun e => h e.symm
      simp [upsert, entry, h, h2]
  | cons a rest ih =>
    obtain ⟨k2, w⟩ := a
    by_cases h1 : k2 = k
    · subst h1
      by_cases h : q = k2
      · subst h; simp [upsert, entry]
      · have h2 : ¬ k2 = q := fun e => h e.symm
        simp [upsert, entry, h, h2]
    · by_cases h : k2 = q
      · have h3 : ¬ q = k := fun e => h1 (h.trans e)
        simp [upsert, entry, h1, h, h3]
      · simp [upsert, entry, h1, h, ih]

theorem sum_slots_accumulate {V : Type} [AddCommMonoid V] (t : InteractionType) (v : V)
    (slots : List (InteractionType × V)) :
    sum_slots (accumulate t v slots) = sum_slots slots + v := by
  induction slots with
  | nil => simp [accumulate, upsert, sum_slots]
  | cons a rest ih =>
    obtain ⟨t2, w⟩ := a
    by_cases h : t2 = t
    · simp [accumulate, upsert, sum_slots, h, add_assoc, add_comm v]
    · have ih2 : (List.map Prod.snd (upsert t (fun old => match old with
          | none => v
          | some w => w + v) rest)).sum = (List.map Prod.snd rest).sum + v := ih
      simp [accumulate, upsert, sum_slots, h, ih2, add_assoc]

theorem addInteraction_settings {V : Type} [ForceValue V] (filters : InteractionType → Bool)
    (st st2 : DistributedForces V) (r : InteractionRecord V)
    (h : st.addInteraction filters r = .ok st2) : st2.fda_settings = st.fda_settings := by
  unfold DistributedForces.addInteraction at h
  split at h
  · split at h
    · cases h; rfl
    · cases h
  · split at h
    · split at h <;> (cases h; rfl)
    · cases h; rfl

theorem addInteraction_unrecognized {V : Type} [ForceValue V]
    (filters : InteractionType → Bool) (st : DistributedForces V) (r : InteractionRecord V)
    (h : r.type = none) :
    st.addInteraction filters r =
      if st.fda_settings.ignore_missing_potentials = true then
        .ok { st with skipped := st.skipped + 1 }
      else .error Fatal.unsupported_potential := by
  unfold DistributedForces.addInteraction
  rw [h]

theorem addInteraction_dropped {V : Type} [ForceValue V]
    (filters : InteractionType → Bool) (st : DistributedForces V) (r : InteractionRecord V)
    (t : InteractionType) (h : r.type = some t)
    (hc : ¬ (st.fda_settings.atoms_in_groups r.i r.j = some true ∧ filters t = true
        ∧ ForceValue.reaches r.value st.fda_settings.threshold = true)) :
    st.addInteraction filters r = .ok st := by
  unfold DistributedForces.addInteraction
  rw [h]
  simp only [if_neg hc]

theorem addInteraction_summed {V : Type} [ForceValue V]
    (filters : InteractionType → Bool) (st : DistributedForces V) (r : InteractionRecord V)
    (t : InteractionType) (h : r.type = some t)
    (hc : st.fda_settings.atoms_in_groups r.i r.j = some true ∧ filters t = true
        ∧ ForceValue.reaches r.value st.fda_settings.threshold = true)
    (hm : st.fda_settings.one_pair = OnePair.SUMMED) :
    st.addInteraction filters r =
      .ok { st with summed := accumulate (r.i, r.j) r.value st.summed } := by
  unfold DistributedForces.addInteraction
  rw [h]
  simp only [if_pos hc, hm]

theorem addInteraction_detailed {V : Type} [ForceValue V]
    (filters : InteractionType → Bool) (st : DistributedForces V) (r : InteractionRecord V)
    (t : InteractionType) (h : r.type = some t)
    (hc : st.fda_settings.atoms_in_groups r.i r.j = some true ∧ filters t = true
        ∧ ForceValue.reaches r.value st.fda_settings.threshold = true)
    (hm : st.fda_settings.one_pair = OnePair.DETAILED) :
    st.addInteraction filters r =
      .ok { st with detailed := accumulate_detailed (r.i, r.j) t r.value st.detailed } := by
  unfold DistributedForces.addInteraction
  rw [h]
  simp only [if_pos hc, hm]

/-- One contribution keeps a detailed store and a summed store of the same settings in
agreement: both abort, or both continue and every pair still has the same summed view. -/
theorem addInteraction_related {V : Type} [ForceValue V] (filters : InteractionType → Bool)
    (s : FDASettings) (D S : DistributedForces V) (r : InteractionRecord V)
    (hD : D.fda_settings = s.with_one_pair OnePair.DETAILED)
    (hS : S.fda_settings = s.with_one_pair OnePair.SUMMED)
    (hrel : ∀ p, D.detailed_sum p = S.summed_value p) :
    (∃ e, D.addInteraction filters r = .error e ∧ S.addInteraction filters r = .error e) ∨
    (∃ D2 S2, D.addInteraction filters r = .ok D2 ∧ S.addInteraction filters r = .ok S2 ∧
      D2.fda_settings = s.with_one_pair OnePair.DETAILED ∧
      S2.fda_settings = s.with_one_pair OnePair.SUMMED ∧
      ∀ p, D2.detailed_sum p = S2.summed_value p) := by
  cases hty : r.type with
  | none =>
    have hDi : D.fda_settings.ignore_missing_potentials = s.ignore_missing_potentials := by
      rw [hD]; rfl
    have hSi : S.fda_settings.ignore_missing_potentials = s.ignore_missing_potentials := by
      rw [hS]; rfl
    rw [addInteraction_unrecognized filters D r hty, addInteraction_unrecognized filters S r hty,
      hDi, hSi]
    by_cases hig : s.ignore_missing_potentials = true
    · right
      exact ⟨{ D with skipped := D.skipped + 1 }, { S with skipped := S.skipped + 1 },
        by simp [hig], by simp [hig], hD, hS, hrel⟩
    · left
      exact ⟨Fatal.unsupported_potential, by simp [hig], by simp [hig]⟩
  | some t =>
    right
    by_cases hc : s.atoms_in_groups r.i r.j = some true ∧ filters t = true
        ∧ ForceValue.reaches r.value s.threshold = true
    · have hcD : D.fda_settings.atoms_in_groups r.i r.j = some true ∧ filters t = true
          ∧ ForceValue.reaches r.value D.fda_settings.threshold = true := by
        rw [hD]; exact hc
      have hcS : S.fda_settings.atoms_in_groups r.i r.j = some true ∧ filters t = true
          ∧ ForceValue.reaches r.value S.fda_settings.threshold = true := by
        rw [hS]; exact hc
      have hmD : D.fda_settings.one_pair = OnePair.DETAILED := by rw [hD]; rfl
      have hmS : S.fda_settings.one_pair = OnePair.SUMMED := by rw [hS]; rfl
      refine ⟨_, _, addInteraction_detailed filters D r t hty hcD hmD,
        addInteraction_summed filters S r t hty hcS hmS, hD, hS, ?_⟩
      intro p
      have h := hrel p
      simp only [DistributedForces.detailed_sum, DistributedForces.summed_value] at h ⊢
      simp only [accumulate_detailed, accumulate, entry_upsert]
      by_cases hp : p = (r.i, r.j)
      · subst hp
        have h2 := sum_slots_accumulate t r.value ((entry (r.i, r.j) D.detailed).getD [])
        simp only [accumulate] at h2
        simp only [if_true, Option.map_some', h2]
        cases hd : entry (r.i, r.j) D.detailed with
        | none =>
          rw [hd] at h
          rw [← h]
          simp [sum_slots]
        | some slots =>
          rw [hd] at h
          rw [← h]
          simp
      · simp only [if_neg hp]
        exact h
    · have hcD : ¬ (D.fda_settings.atoms_in_groups r.i r.j = some true ∧ filters t = true
          ∧ ForceValue.reaches r.value D.fda_settings.threshold = true) := by
        rw [hD]; exact hc
      have hcS : ¬ (S.fda_settings.atoms_in_groups r.i r.j = some true ∧ filters t = true
          ∧ ForceValue.reaches r.value S.fda_settings.threshold = true) := by
        rw [hS]; exact hc
      exact ⟨D, S, addInteraction_dropped filters D r t hty hcD,
        addInteraction_dropped filters S r t hty hcS, hD, hS, hrel⟩

theorem run_related {V : Type} [ForceValue V] (filters : InteractionType → Bool)
    (s : FDASettings) (rs : List (InteractionRecord V)) (D S : DistributedForces V)
    (hD : D.fda_settings = s.with_one_pair OnePair.DETAILED)
    (hS : S.fda_settings = s.with_one_pair OnePair.SUMMED)
    (hrel : ∀ p, D.detailed_sum p = S.summed_value p) :
    (∃ e, D.run filters rs = .error e ∧ S.run filters rs = .error e) ∨
    (∃ D2 S2, D.run filters rs = .ok D2 ∧ S.run filters rs = .ok S2 ∧
      ∀ p, D2.detailed_sum p = S2.summed_value p) := by
  induction rs generalizing D S with
  | nil => exact Or.inr ⟨D, S, rfl, rfl, hrel⟩
  | cons r rest ih =>
    rcases addInteraction_related filters s D S r hD hS hrel with
      ⟨e, h1, h2⟩ | ⟨D2, S2, h1, h2, hD2, hS2, hrel2⟩
    · left
      exact ⟨e, by simp [DistributedForces.run, List.foldlM_cons, h1, bind, Except.bind],
        by simp [DistributedForces.run, List.foldlM_cons, h2, bind, Except.bind]⟩
    · have h := ih D2 S2 hD2 hS2 hrel2
      simp only [DistributedForces.run] at h ⊢
      simp only [List.foldlM_cons, h1, h2, bind, Except.bind]
      exact h

theorem run_recognized_ok {V : Type} [ForceValue V] (filters : InteractionType → Bool)
    (rs : List (InteractionRecord V)) (st : DistributedForces V)
    (h : ∀ r ∈ rs, r.type ≠ none) : ∃ st2, st.run filters rs = .ok st2 := by
  induction rs generalizing st with
  | nil => exact ⟨st, rfl⟩
  | cons r rest ih =>
    have hr : r.type ≠ none := h r (List.mem_cons_self _ _)
    have hstep : ∃ st1, st.addInteraction filters r = .ok st1 := by
      unfold DistributedForces.addInteraction
      cases hty : r.type with
      | none => exact absurd hty hr
      | some t =>
        simp only
        split
        · split <;> exact ⟨_, rfl⟩
        · exact ⟨_, rfl⟩
    obtain ⟨st1, h1⟩ := hstep
    obtain ⟨st2, h2⟩ := ih st1 (fun x hx => h x (List.mem_cons_of_mem _ hx))
    refine ⟨st2, ?_⟩
    simp only [DistributedForces.run] at h2 ⊢
    simp only [List.foldlM_cons, h1, bind, Except.bind]
    exact h2

theorem run_cons {V : Type} [ForceValue V] (filters : InteractionType → Bool)
    (st : DistributedForces V) (r : InteractionRecord V) (rs : List (InteractionRecord V)) :
    st.run filters (r :: rs) =
      match st.addInteraction filters r with
      | .ok st1 => st1.run filters rs
      | .error e => .error e := by
  simp only [DistributedForces.run, List.foldlM_cons, bind, Except.bind]
  cases st.addInteraction filters r <;> rfl

theorem addInteraction_add_skipped {V : Type} [ForceValue V]
    (filters : InteractionType → Bool) (st : DistributedForces V) (k : Nat)
    (r : InteractionRecord V) :
    (st.add_skipped k).addInteraction filters r =
      (st.addInteraction filters r).map (fun st2 => st2.add_skipped k) := by
  cases hty : r.type with
  | none =>
    rw [addInteraction_unrecognized filters (st.add_skipped k) r hty,
      addInteraction_unrecognized filters st r hty]
    by_cases hig : st.fda_settings.ignore_missing_potentials = true
    · simp [DistributedForces.add_skipped, hig, Except.map, Nat.add_right_comm]
    · simp [DistributedForces.add_skipped, hig, Except.map]
  | some t =>
    by_cases hc : st.fda_settings.atoms_in_groups r.i r.j = some true ∧ filters t = true
        ∧ ForceValue.reaches r.value st.fda_settings.threshold = true
    · cases hm : st.fda_settings.one_pair with
      | DETAILED =>
        rw [addInteraction_detailed filters (st.add_skipped k) r t hty hc hm,
          addInteraction_detailed filters st r t hty hc hm]
        rfl
      | SUMMED =>
        rw [addInteraction_summed filters (st.add_skipped k) r t hty hc hm,
          addInteraction_summed filters st r t hty hc hm]
        rfl
    · rw [addInteraction_dropped filters (st.add_skipped k) r t hty hc,
        addInteraction_dropped filters st r t hty hc]
      rfl

theorem run_add_skipped {V : Type} [ForceValue V] (filters : InteractionType → Bool)
    (rs : List (InteractionRecord V)) (st : DistributedForces V) (k : Nat) :
    (st.add_skipped k).run filters rs =
      (st.run filters rs).map (fun st2 => st2.add_skipped k) := by
  induction rs generalizing st with
  | nil => rfl
  | cons r rest ih =>
    rw [run_cons, run_cons, addInteraction_add_skipped]
    cases st.addInteraction filters r with
    | error e => rfl
    | ok st1 => exact ih st1

/-- With `ignore_missing_potentials` set, a run completes, and it ends in the store of the run
over the recognized contributions alone, with the unrecognized ones counted. -/
theorem run_ignoring {V : Type} [ForceValue V] (filters : InteractionType → Bool)
    (rs : List (InteractionRecord V)) (st : DistributedForces V)
    (hig : st.fda_settings.ignore_missing_potentials = true) :
    st.run filters rs =
      (st.run filters (rs.filter (fun r => r.recognized))).map
        (fun st2 => st2.add_skipped (rs.countP (fun r => !r.recognized))) := by
  induction rs generalizing st with
  | nil =>
    simp only [List.filter_nil, List.countP_nil, DistributedForces.run, List.foldlM_nil]
    rfl
  | cons r rest ih =>
    cases hty : r.type with
    | none =>
      have hrec : r.recognized = false := by simp [InteractionRecord.recognized, hty]
      have hstep : st.run filters (r :: rest) = (st.add_skipped 1).run filters rest := by
        rw [run_cons, addInteraction_unrecognized filters st r hty, if_pos hig]
        rfl
      rw [hstep, run_add_skipped, ih st hig]
      simp only [List.filter_cons, hrec, List.countP_cons, Bool.not_false, if_true,
        Bool.false_eq_true, if_false]
      cases st.run filters (rest.filter (fun r => r.recognized)) with
      | error e => rfl
      | ok st2 =>
        simp [Except.map, DistributedForces.add_skipped, Nat.add_assoc]
    | some t =>
      have hrec : r.recognized = true := by simp [InteractionRecord.recognized, hty]
      simp only [List.filter_cons, hrec, List.countP_cons, if_true]
      rw [run_cons, run_cons]
      cases hstep : st.addInteraction filters r with
      | error e => rfl
      | ok st1 =>
        have hs := addInteraction_settings filters st st1 r hstep
        have h := ih st1 (by rw [hs]; exact hig)
        simp only [h]
        simp

/-- Without `ignore_missing_potentials`, a run that meets a contribution of unrecognized type
aborts. -/
theorem run_fatal {V : Type} [ForceValue V] (filters : InteractionType → Bool)
    (rs : List (InteractionRecord V)) (st : DistributedForces V)
    (hig : st.fda_settings.ignore_missing_potentials = false)
    (h : ∃ r ∈ rs, r.type = none) :
    st.run filters rs = .error Fatal.unsupported_potential := by
  induction rs generalizing st with
  | nil =>
    obtain ⟨r, hr, _⟩ := h
    cases hr
  | cons r rest ih =>
    rw [run_cons]
    cases hty : r.type with
    | none =>
      rw [addInteraction_unrecognized filters st r hty]
      simp [hig]
    | some t =>
      have hrest : ∃ x ∈ rest, x.type = none := by
        obtain ⟨x, hx, hxn⟩ := h
        rcases List.mem_cons.mp hx with rfl | hx2
        · rw [hty] at hxn; cases hxn
        · exact ⟨x, hx2, hxn⟩
      cases hstep : st.addInteraction filters r with
      | error e =>
        cases e
        rfl
      | ok st1 =>
        have hs := addInteraction_settings filters st st1 r hstep
        exact ih st1 (by rw [hs]; exact hig) hrest

theorem filter_recognized {V : Type} (rs : List (InteractionRecord V)) :
    ∀ r ∈ rs.filter (fun r => r.recognized), r.type ≠ none := by
  intro r hr
  have h := (List.mem_filter.mp hr).2
  intro hn
  simp [InteractionRecord.recognized, hn] at h

/-- C3: a run that meets a contribution of an unsupported (unrecognized) potential exits with
code 1 exactly when `ignore_missing_potentials` is false; it then aborts with the fatal error,
and otherwise it completes, in the store that the run over the recognized contributions alone
reaches, with the dropped contributions counted. -/
theorem unsupported_potential_fatal_iff {V : Type} [ForceValue V]
    (filters : InteractionType → Bool) (st : DistributedForces V)
    (rs : List (InteractionRecord V)) (h : ∃ r ∈ rs, r.type = none) :
    (exit_code (st.run filters rs) = 1 ↔ st.fda_settings.ignore_missing_potentials = false) ∧
    ∃ st2, st.run filters (rs.filter (fun r => r.recognized)) = .ok st2 ∧
      st.run filters rs =
        if st.fda_settings.ignore_missing_potentials = true then
          .ok (st2.add_skipped (rs.countP (fun r => !r.recognized)))
        else .error Fatal.unsupported_potential := by
  obtain ⟨st2, h2⟩ := run_recognized_ok filters (rs.filter (fun r => r.recognized)) st
    (filter_recognized rs)
  cases hig : st.fda_settings.ignore_missing_potentials with
  | false =>
    have hf := run_fatal filters rs st hig h
    exact ⟨by simp [hf, exit_code], st2, h2, by simp [hf]⟩
  | true =>
    have hr := run_ignoring filters rs st hig
    rw [h2] at hr
    exact ⟨by simp [hr, exit_code, Except.map], st2, h2, by simp [hr, Except.map]⟩

/-- Witness of C3: the run over `records4`, which ends in a contribution of an unrecognized
potential, without and with `ignore_missing_potentials`. -/
theorem unsupported_potential_fatal_iff_witness :
    (∃ r ∈ records4, r.type = none) ∧
    exit_code ((DistributedForces.empty settings3).run (fun _ => true) records4) = 1 ∧
    exit_code ((DistributedForces.empty settings3_ignoring).run (fun _ => true) records4) = 0 :=
  have h : ∃ r ∈ records4, r.type = none := ⟨⟨0, 1, none, 4⟩, by simp [records4], rfl⟩
  ⟨h,
    (unsupported_potential_fatal_iff (fun _ => true) (DistributedForces.empty settings3)
      records4 h).1.mpr rfl,
    by
      obtain ⟨st2, _, h2⟩ := (unsupported_potential_fatal_iff (fun _ => true)
        (DistributedForces.empty settings3_ignoring) records4 h).2
      rw [h2]
      rfl⟩

/-- C9: for every sequence of contributions whose endpoints are all in scope, and every pair,
the run in detailed one-pair mode and the run in summed one-pair mode both complete, and the
sum over the per-interaction-type slots of the pair equals the summed accumulator of the pair;
the one exception is a sequence with a contribution of unrecognized type under settings that
do not ignore it, where both runs abort. -/
theorem detailed_sum_eq_summed {V : Type} [ForceValue V] (filters : InteractionType → Bool)
    (s : FDASettings) (rs : List (InteractionRecord V))
    (_hscope : ∀ r ∈ rs, s.atoms_in_groups r.i r.j = some true) (p : Int × Int) :
    (∃ D S,
      (DistributedForces.empty (s.with_one_pair OnePair.DETAILED)).run filters rs = .ok D ∧
      (DistributedForces.empty (s.with_one_pair OnePair.SUMMED)).run filters rs = .ok S ∧
      D.detailed_sum p = S.summed_value p) ∨
    (s.ignore_missing_potentials = false ∧ (∃ r ∈ rs, r.type = none) ∧
      (DistributedForces.empty (s.with_one_pair OnePair.DETAILED)).run filters rs
        = .error Fatal.unsupported_potential ∧
      (DistributedForces.empty (s.with_one_pair OnePair.SUMMED)).run filters rs
        = .error Fatal.unsupported_potential) := by
  by_cases hbad : s.ignore_missing_potentials = false ∧ ∃ r ∈ rs, r.type = none
  · right
    exact ⟨hbad.1, hbad.2,
      run_fatal filters rs (DistributedForces.empty (s.with_one_pair OnePair.DETAILED))
        hbad.1 hbad.2,
      run_fatal filters rs (DistributedForces.empty (s.with_one_pair OnePair.SUMMED))
        hbad.1 hbad.2⟩
  · left
    have hok : ∃ D, (DistributedForces.empty (s.with_one_pair OnePair.DETAILED)).run
        filters rs = .ok D := by
      by_cases hig : s.ignore_missing_potentials = true
      · have hr := run_ignoring filters rs
          (DistributedForces.empty (s.with_one_pair OnePair.DETAILED)) hig
        obtain ⟨st2, h2⟩ := run_recognized_ok filters (rs.filter (fun r => r.recognized))
          (DistributedForces.empty (s.with_one_pair OnePair.DETAILED)) (filter_recognized rs)
        rw [h2] at hr
        exact ⟨_, hr⟩
      · have hig2 : s.ignore_missing_potentials = false := by
          cases h : s.ignore_missing_potentials with
          | false => rfl
          | true => exact absurd h hig
        have hall : ∀ r ∈ rs, r.type ≠ none := fun r hr hn => hbad ⟨hig2, r, hr, hn⟩
        exact run_recognized_ok filters rs _ hall
    obtain ⟨D, hD⟩ := hok
    rcases run_related filters s rs
        (DistributedForces.empty (s.with_one_pair OnePair.DETAILED))
        (DistributedForces.empty (s.with_one_pair OnePair.SUMMED)) rfl rfl (fun _ => rfl) with
      ⟨e, h1, _⟩ | ⟨D2, S2, h1, h2, hrel⟩
    · rw [hD] at h1
      cases h1
    · exact ⟨D2, S2, h1, h2, hrel p⟩

/-- Witness of C9: the three contributions of `records3` to the pair (0, 1) of the three-atom
settings, which is in scope. -/
theorem detailed_sum_eq_summed_witness :
    (∀ r ∈ records3, settings3.atoms_in_groups r.i r.j = some true) ∧
    ((∃ D S,
      (DistributedForces.empty (settings3.with_one_pair OnePair.DETAILED)).run
        (fun _ => true) records3 = .ok D ∧
      (DistributedForces.empty (settings3.with_one_pair OnePair.SUMMED)).run
        (fun _ => true) records3 = .ok S ∧
      D.detailed_sum (0, 1) = S.summed_value (0, 1)) ∨
    (settings3.ignore_missing_potentials = false ∧ (∃ r ∈ records3, r.type = none) ∧
      (DistributedForces.empty (settings3.with_one_pair OnePair.DETAILED)).run
        (fun _ => true) records3 = .error Fatal.unsupported_potential ∧
      (DistributedForces.empty (settings3.with_one_pair OnePair.SUMMED)).run
        (fun _ => true) records3 = .error Fatal.unsupported_potential)) :=
  have h : ∀ r ∈ records3, settings3.atoms_in_groups r.i r.j = some true := by
    intro r hr
    simp only [records3, List.mem_cons, List.mem_singleton, List.not_mem_nil, or_false] at hr
    rcases hr with rfl | rfl | rfl <;> decide
  ⟨h, detailed_sum_eq_summed (fun _ => true) settings3 records3 h (0, 1)⟩

/-! ### Pairwise force file -/

theorem lawful_scalar : lawful_components ℚ :=
  ⟨fun _ => rfl, fun _ => rfl⟩

theorem lawful_vector : lawful_components (ℚ × ℚ × ℚ) :=
  ⟨fun _ => rfl, fun _ => rfl⟩

theorem read_reals_write (xs : List ℚ) (rest : List Field) :
    read_reals xs.length (xs.map Field.real ++ rest) = some (xs, rest) := by
  induction xs with
  | nil => rfl
  | cons x xs ih => simp [read_reals, ih]

theorem read_pair_write {V : Type} [ForceValue V] (hV : lawful_components V)
    (p : PairForce V) (rest : List Field) :
    read_pair (write_pair p ++ rest) = some (p, rest) := by
  have h0 : (0 : Int) ≤ (p.type : Int) := Int.ofNat_nonneg _
  have h1 := read_reals_write (ForceValue.components p.force) rest
  rw [hV.1 p.force] at h1
  simp [write_pair, read_pair, h0, h1, hV.2 p.force]

theorem read_pairs_write {V : Type} [ForceValue V] (hV : lawful_components V)
    (ps : List (PairForce V)) (rest : List Field) :
    read_pairs ps.length ((ps.map write_pair).flatten ++ rest) = some (ps, rest) := by
  induction ps with
  | nil => rfl
  | cons p ps ih =>
    simp only [List.map_cons, List.flatten_cons, List.length_cons, List.append_assoc, read_pairs,
      read_pair_write hV]
    simp [ih]

theorem read_frames_write {V : Type} [ForceValue V] (hV : lawful_components V)
    (frames : List (Frame V)) (fuel : Nat) (hfuel : frames.length ≤ fuel) :
    read_frames fuel
      (frames.map (fun fr => write_header fr ++ (fr.pairs.map write_pair).flatten)).flatten
      = some frames := by
  induction frames generalizing fuel with
  | nil => cases fuel <;> rfl
  | cons fr frames ih =>
    cases fuel with
    | zero => simp at hfuel
    | succ fuel =>
      have h0 : (0 : Int) ≤ (fr.pairs.length : Int) := Int.ofNat_nonneg _
      have h1 := read_pairs_write hV fr.pairs
        (frames.map (fun fr => write_header fr ++ (fr.pairs.map write_pair).flatten)).flatten
      have h2 := ih fuel (by simpa using hfuel)
      have hs : ((fr :: frames).map
            (fun fr => write_header fr ++ (fr.pairs.map write_pair).flatten)).flatten
          = Field.int fr.index :: Field.int fr.pairs.length ::
            ((fr.pairs.map write_pair).flatten ++ (frames.map
              (fun fr => write_header fr ++ (fr.pairs.map write_pair).flatten)).flatten) := rfl
      rw [hs]
      simp only [read_frames, h0, if_true, Int.toNat_ofNat, h1]
      simp [h2]

theorem length_le_binary {V : Type} [ForceValue V] (frames : List (Frame V)) :
    frames.length ≤
      (frames.map (fun fr => write_header fr ++ (fr.pairs.map write_pair).flatten)).flatten.length
    := by
  induction frames with
  | nil => simp
  | cons fr frames ih =>
    have h2 : (write_header fr).length = 2 := rfl
    simp only [List.map_cons, List.flatten_cons, List.length_append, List.length_cons, h2]
    omega

theorem read_binary_write {V : Type} [ForceValue V] (hV : lawful_components V)
    (frames : List (Frame V)) : read_binary (write_binary frames) = some frames := by
  simp only [write_binary, read_binary]
  exact read_frames_write hV frames _ (length_le_binary frames)

theorem read_pair_lines_write {V : Type} [ForceValue V] (hV : lawful_components V)
    (ps : List (PairForce V)) (rest : List (List Field)) :
    read_pair_lines ps.length (ps.map write_pair ++ rest) = some (ps, rest) := by
  induction ps with
  | nil => rfl
  | cons p ps ih =>
    have h1 := read_pair_write hV p []
    rw [List.append_nil] at h1
    simp only [List.map_cons, List.cons_append, List.length_cons, read_pair_lines, h1]
    simp [ih]

theorem read_frame_lines_write {V : Type} [ForceValue V] (hV : lawful_components V)
    (frames : List (Frame V)) (fuel : Nat) (hfuel : frames.length ≤ fuel) :
    read_frame_lines fuel
      (frames.map (fun fr => write_header fr :: fr.pairs.map write_pair)).flatten
      = some frames := by
  induction frames generalizing fuel with
  | nil => cases fuel <;> rfl
  | cons fr frames ih =>
    cases fuel with
    | zero => simp at hfuel
    | succ fuel =>
      have h0 : (0 : Int) ≤ (fr.pairs.length : Int) := Int.ofNat_nonneg _
      have h1 := read_pair_lines_write hV fr.pairs
        (frames.map (fun fr => write_header fr :: fr.pairs.map write_pair)).flatten
      have h2 := ih fuel (by simpa using hfuel)
      have hs : ((fr :: frames).map
            (fun fr => write_header fr :: fr.pairs.map write_pair)).flatten
          = [Field.int fr.index, Field.int fr.pairs.length] ::
            (fr.pairs.map write_pair ++ (frames.map
              (fun fr => write_header fr :: fr.pairs.map write_pair)).flatten) := rfl
      rw [hs]
      simp only [read_frame_lines, h0, if_true, Int.toNat_ofNat, h1]
      simp [h2]

theorem length_le_ascii {V : Type} [ForceValue V] (frames : List (Frame V)) :
    frames.length ≤
      (frames.map (fun fr => write_header fr :: fr.pairs.map write_pair)).flatten.length := by
  induction frames with
  | nil => simp
  | cons fr frames ih =>
    simp only [List.map_cons, List.flatten_cons, List.length_append, List.length_cons]
    omega

theorem read_ascii_write {V : Type} [ForceValue V] (hV : lawful_components V)
    (frames : List (Frame V)) : read_ascii (write_ascii frames) = some frames := by
  simp only [write_ascii, read_ascii]
  exact read_frame_lines_write hV frames _ (length_le_ascii frames)

/-- C10: for every list of frames, of scalar forces or of vector forces, reading back what
`write` produced returns the same frames, in the ASCII format and in the binary format. -/
theorem read_write_roundtrip :
    (∀ frames : List (Frame ℚ),
      read_ascii (write_ascii frames) = some frames ∧
      read_binary (write_binary frames) = some frames) ∧
    (∀ frames : List (Frame (ℚ × ℚ × ℚ)),
      read_ascii (write_ascii frames) = some frames ∧
      read_binary (write_binary frames) = some frames) :=
  ⟨fun frames => ⟨read_ascii_write lawful_scalar frames, read_binary_write lawful_scalar frames⟩,
    fun frames => ⟨read_ascii_write lawful_vector frames, read_binary_write lawful_vector frames⟩⟩

/-! ### Scope predicates, continued -/

/-- C18: every in-scope pair has in-scope endpoints: for atom indices `i` and `j` covered by
the masks, if `atoms_in_groups(i, j)` returns true then `atom_in_groups(i)` and
`atom_in_groups(j)` return true. -/
theorem atoms_in_groups_endpoints (s : FDASettings) (i j : Int)
    (hi : s.covered i) (hj : s.covered j) (h : s.atoms_in_groups i j = some true) :
    s.atom_in_groups i = some true ∧ s.atom_in_groups j = some true := by
  obtain ⟨a1, ha1⟩ := index_of_lt s.sys_in_group1 i hi.1 hi.2.1
  obtain ⟨a2, ha2⟩ := index_of_lt s.sys_in_group2 i hi.1 hi.2.2
  obtain ⟨b1, hb1⟩ := index_of_lt s.sys_in_group1 j hj.1 hj.2.1
  obtain ⟨b2, hb2⟩ := index_of_lt s.sys_in_group2 j hj.1 hj.2.2
  revert h
  by_cases h1 : a1 = 0 <;> by_cases h2 : a2 = 0 <;> by_cases h3 : b1 = 0 <;>
    by_cases h4 : b2 = 0 <;>
    simp [FDASettings.atoms_in_groups, FDASettings.one_in_each, FDASettings.atom_in_groups,
      ha1, ha2, hb1, hb2, h1, h2, h3, h4]

/-- Witness of C18 on the three-atom settings: the pair (0, 1) is in scope, and so are atom 0
and atom 1. -/
theorem atoms_in_groups_endpoints_witness :
    settings3.covered 0 ∧ settings3.covered 1 ∧ settings3.atoms_in_groups 0 1 = some true ∧
    settings3.atom_in_groups 0 = some true ∧ settings3.atom_in_groups 1 = some true :=
  ⟨by decide, by decide, by decide,
    atoms_in_groups_endpoints settings3 0 1 (by decide) (by decide) (by decide)⟩

/-- C20: `atoms_in_groups` is symmetric in its arguments: for atom indices `i` and `j` covered
by the masks, `atoms_in_groups(i, j)` and `atoms_in_groups(j, i)` return the same value. -/
theorem atoms_in_groups_symm (s : FDASettings) (i j : Int)
    (hi : s.covered i) (hj : s.covered j) :
    s.atoms_in_groups i j = s.atoms_in_groups j i ∧ (s.atoms_in_groups i j).isSome = true := by
  obtain ⟨a1, ha1⟩ := index_of_lt s.sys_in_group1 i hi.1 hi.2.1
  obtain ⟨a2, ha2⟩ := index_of_lt s.sys_in_group2 i hi.1 hi.2.2
  obtain ⟨b1, hb1⟩ := index_of_lt s.sys_in_group1 j hj.1 hj.2.1
  obtain ⟨b2, hb2⟩ := index_of_lt s.sys_in_group2 j hj.1 hj.2.2
  by_cases h1 : a1 = 0 <;> by_cases h2 : a2 = 0 <;> by_cases h3 : b1 = 0 <;>
    by_cases h4 : b2 = 0 <;>
    simp [FDASettings.atoms_in_groups, FDASettings.one_in_each,
      ha1, ha2, hb1, hb2, h1, h2, h3, h4]

/-- Witness of C20 on the three-atom settings, at the in-scope pair (0, 1) and its mirror. -/
theorem atoms_in_groups_symm_witness :
    settings3.covered 0 ∧ settings3.covered 1 ∧
    settings3.atoms_in_groups 0 1 = settings3.atoms_in_groups 1 0 ∧
    (settings3.atoms_in_groups 0 1).isSome = true :=
  ⟨by decide, by decide, atoms_in_groups_symm settings3 0 1 (by decide) (by decide)⟩

/-! ### Threshold -/

theorem addInteraction_below {V : Type} [ForceValue V] (filters : InteractionType → Bool)
    (st : DistributedForces V) (r : InteractionRecord V)
    (h : ForceValue.reaches r.value st.fda_settings.threshold = false) :
    (∃ st2, st.addInteraction filters r = .ok st2 ∧ st2.fda_settings = st.fda_settings ∧
      st2.summed = st.summed ∧ st2.detailed = st.detailed) ∨
    (st.fda_settings.ignore_missing_potentials = false ∧ r.type = none ∧
      st.addInteraction filters r = .error Fatal.unsupported_potential) := by
  cases hty : r.type with
  | none =>
    rw [addInteraction_unrecognized filters st r hty]
    cases hig : st.fda_settings.ignore_missing_potentials with
    | false => exact Or.inr ⟨rfl, rfl, by simp⟩
    | true =>
      exact Or.inl ⟨{ st with skipped := st.skipped + 1 }, by simp, rfl, rfl, rfl⟩
  | some t =>
    have hc : ¬ (st.fda_settings.atoms_in_groups r.i r.j = some true ∧ filters t = true
        ∧ ForceValue.reaches r.value st.fda_settings.threshold = true) := by
      rw [h]
      simp
    exact Or.inl ⟨st, addInteraction_dropped filters st r t hty hc, rfl, rfl, rfl⟩

/-- A run over contributions that all fail the threshold test changes no accumulator. -/
theorem run_below {V : Type} [ForceValue V] (filters : InteractionType → Bool)
    (rs : List (InteractionRecord V)) (st : DistributedForces V)
    (h : ∀ r ∈ rs, ForceValue.reaches r.value st.fda_settings.threshold = false) :
    (∃ st2, st.run filters rs = .ok st2 ∧ st2.summed = st.summed ∧
      st2.detailed = st.detailed) ∨
    (st.fda_settings.ignore_missing_potentials = false ∧ (∃ r ∈ rs, r.type = none) ∧
      st.run filters rs = .error Fatal.unsupported_potential) := by
  induction rs generalizing st with
  | nil => exact Or.inl ⟨st, rfl, rfl, rfl⟩
  | cons r rest ih =>
    rw [run_cons]
    rcases addInteraction_below filters st r (h r (List.mem_cons_self _ _)) with
      ⟨st1, h1, hs, hsum, hdet⟩ | ⟨hig, hty, h1⟩
    · rw [h1]
      have hrest : ∀ x ∈ rest, ForceValue.reaches x.value st1.fda_settings.threshold = false := by
        intro x hx
        rw [hs]
        exact h x (List.mem_cons_of_mem _ hx)
      rcases ih st1 hrest with ⟨st2, h2, hsum2, hdet2⟩ | ⟨hig, ⟨x, hx, hxn⟩, h2⟩
      · exact Or.inl ⟨st2, h2, hsum2.trans hsum, hdet2.trans hdet⟩
      · exact Or.inr ⟨by rw [← hs]; exact hig, ⟨x, List.mem_cons_of_mem _ hx, hxn⟩, h2⟩
    · rw [h1]
      exact Or.inr ⟨hig, ⟨r, List.mem_cons_self _ _, hty⟩, rfl⟩

/-- C11: a contribution whose magnitude is below the configured threshold is never added to
an accumulator: a run from the empty store over contributions that all have
`|value| < threshold` completes with an empty pair list, in summed and in detailed mode; the
one exception is a contribution of unrecognized type under settings that do not ignore it,
where the run aborts. -/
theorem below_threshold_never_added (filters : InteractionType → Bool) (s : FDASettings)
    (rs : List (InteractionRecord ℚ)) (hsmall : ∀ r ∈ rs, |r.value| < s.threshold) :
    (∃ st2, (DistributedForces.empty s).run filters rs = .ok st2 ∧
      st2.summed = [] ∧ st2.detailed = []) ∨
    (s.ignore_missing_potentials = false ∧ (∃ r ∈ rs, r.type = none) ∧
      (DistributedForces.empty s).run filters rs = .error Fatal.unsupported_potential) := by
  have h : ∀ r ∈ rs, ForceValue.reaches r.value
      (DistributedForces.empty (V := ℚ) s).fda_settings.threshold = false := by
    intro r hr
    have h1 := hsmall r hr
    show decide (s.threshold ≤ |r.value|) = false
    simpa using h1
  exact run_below filters rs (DistributedForces.empty s) h

/-- Witness of C11: two contributions to the in-scope pair (0, 1) of the three-atom settings,
of magnitude below the default threshold `1e-10`. -/
theorem below_threshold_never_added_witness :
    (∀ r ∈ records_small, |r.value| < settings3.threshold) ∧
    ((∃ st2, (DistributedForces.empty settings3).run (fun _ => true) records_small = .ok st2 ∧
      st2.summed = [] ∧ st2.detailed = []) ∨
    (settings3.ignore_missing_potentials = false ∧ (∃ r ∈ records_small, r.type = none) ∧
      (DistributedForces.empty settings3).run (fun _ => true) records_small
        = .error Fatal.unsupported_potential)) :=
  have h : ∀ r ∈ records_small, |r.value| < settings3.threshold := by
    intro r hr
    simp only [records_small, List.mem_cons, List.mem_singleton, List.not_mem_nil,
      or_false] at hr
    rcases hr with rfl | rfl <;>
      norm_num [settings3, FDASettings.default_constructor, abs_lt]
  ⟨h, below_threshold_never_added (fun _ => true) settings3 records_small h⟩

/-! ### Averaging -/

theorem add_entries_scale {K : Type} (k : ℚ) (l : List (K × ℚ)) :
    add_entries (l.map (fun e => (e.1, k * e.2))) l = l.map (fun e => (e.1, (k + 1) * e.2)) := by
  induction l with
  | nil => rfl
  | cons e rest ih =>
    simp only [add_entries] at ih
    simp only [add_entries, List.map_cons, List.zipWith_cons_cons, ih]
    congr 2
    ring

theorem add_frame_scale (st : DistributedForces ℚ) (k : ℚ) :
    (st.scale k).add_frame st = st.scale (k + 1) := by
  have hd : ∀ l : List ((Int × Int) × List (InteractionType × ℚ)),
      List.zipWith (fun x y => (x.1, add_entries x.2 y.2))
        (l.map (fun e => (e.1, e.2.map (fun sl => (sl.1, k * sl.2))))) l
      = l.map (fun e => (e.1, e.2.map (fun sl => (sl.1, (k + 1) * sl.2)))) := by
    intro l
    induction l with
    | nil => rfl
    | cons e rest ih =>
      simp only [List.map_cons, List.zipWith_cons_cons, ih, add_entries_scale]
  simp only [DistributedForces.add_frame, DistributedForces.scale, add_entries_scale, hd]

theorem scale_one (st : DistributedForces ℚ) : st.scale 1 = st := by
  cases st
  simp [DistributedForces.scale]

theorem foldl_add_frame_replicate (st : DistributedForces ℚ) (n : Nat) (k : ℚ) :
    (List.replicate n st).foldl DistributedForces.add_frame (st.scale k) = st.scale (k + n) := by
  induction n generalizing k with
  | zero => simp
  | succ n ih =>
    simp only [List.replicate_succ, List.foldl_cons, add_frame_scale, ih]
    congr 1
    push_cast
    ring

theorem scalar_real_divide_scale (st : DistributedForces ℚ) (k : ℚ) (hk : k ≠ 0) :
    (st.scale k).scalar_real_divide k = st := by
  cases st
  simp [DistributedForces.scale, DistributedForces.scalar_real_divide, divide_entries,
    Function.comp_def, mul_div_cancel_left₀ _ hk]

/-- C12: averaging is idempotent on equal frames: `scalar_real_divide` with divisor 1 leaves
the store unchanged, averaging a single frame returns it, and for every `N ≥ 1` averaging `N`
copies of a frame (their entry-by-entry sum with every scalar force divided by `N`) returns
that frame. -/
theorem average_copies (st : DistributedForces ℚ) (n : Nat) (hn : 1 ≤ n) :
    st.scalar_real_divide 1 = st ∧ average 1 [st] = some st ∧
    average n (List.replicate n st) = some st := by
  have h1 : st.scalar_real_divide 1 = st := by
    have h := scalar_real_divide_scale st 1 one_ne_zero
    rwa [scale_one] at h
  refine ⟨h1, ?_, ?_⟩
  · simp only [average, List.take, List.foldl_nil, Nat.cast_one, h1]
  · obtain ⟨m, rfl⟩ : ∃ m, n = m + 1 := ⟨n - 1, by omega⟩
    have hfold := foldl_add_frame_replicate st m 1
    rw [scale_one] at hfold
    have hne : ((1 : ℚ) + m) ≠ 0 := by positivity
    have h2 := scalar_real_divide_scale st (1 + m) hne
    have hcast : ((m + 1 : Nat) : ℚ) = 1 + m := by push_cast; ring
    have htake : (List.replicate (m + 1) st).take (m + 1) = st :: List.replicate m st := by
      rw [List.take_replicate, Nat.min_self, List.replicate_succ]
    simp only [average, htake, hfold, hcast, h2]

/-- Witness of C12: three copies of the frame `store7`. -/
theorem average_copies_witness :
    1 ≤ 3 ∧ store7.scalar_real_divide 1 = store7 ∧ average 1 [store7] = some store7 ∧
    average 3 (List.replicate 3 store7) = some store7 :=
  ⟨by decide, average_copies store7 3 (by decide)⟩

/-! ### Frame selection -/

theorem skip_loop_getElem? {α : Type} (n : Nat) (hn : 1 ≤ n) (frames : List α) :
    ∀ wait k : Nat, (skip_loop n wait frames)[k]? = frames[wait + k * n]? := by
  induction frames with
  | nil => intro wait k; simp [skip_loop]
  | cons frame frames ih =>
    intro wait k
    cases wait with
    | zero =>
      cases k with
      | zero => simp [skip_loop]
      | succ k =>
        have h : 0 + (k + 1) * n = (n - 1 + k * n) + 1 := by
          rw [Nat.add_mul]
          omega
        rw [h]
        simp only [skip_loop, List.getElem?_cons_succ, ih]
    | succ wait =>
      have h : wait + 1 + k * n = (wait + k * n) + 1 := by omega
      rw [h]
      simp only [skip_loop, List.getElem?_cons_succ, ih]

theorem select_skip_getElem? {α : Type} (n : Nat) (hn : 1 ≤ n) (frames : List α) (k : Nat) :
    (select_skip n frames)[k]? = frames[k * n]? := by
  have h := skip_loop_getElem? n hn frames 0 k
  rwa [Nat.zero_add] at h

theorem select_skip_range_getElem? (n : Nat) (hn : 1 ≤ n) (count k i : Nat) :
    (select_skip n (List.range count))[k]? = some i ↔ k * n < count ∧ i = k * n := by
  rw [select_skip_getElem? n hn]
  by_cases h : k * n < count
  · rw [List.getElem?_eq_getElem (by simpa using h)]
    simp [h, eq_comm]
  · rw [List.getElem?_eq_none (by simpa using h)]
    simp [h]

/-- C15: for every `N ≥ 1` and every list of input frames, "skip N" emits as its `k`-th frame
the input frame of index `k * N`, unchanged, and nothing after the last such frame: the emitted
frame indices are exactly the multiples of `N` below the number of frames, in increasing order;
"skip 2" over 6 frames emits exactly the frames 0, 2 and 4. -/
theorem select_skip_multiples {α : Type} (n : Nat) (hn : 1 ≤ n) (frames : List α) :
    (∀ k, (select_skip n frames)[k]? = frames[k * n]?) ∧
    (∀ i, i ∈ select_skip n (List.range frames.length) ↔ i < frames.length ∧ n ∣ i) ∧
    (select_skip n (List.range frames.length)).Pairwise (· < ·) ∧
    select_skip 2 (List.range 6) = [0, 2, 4] := by
  refine ⟨select_skip_getElem? n hn frames, ?_, ?_, rfl⟩
  · intro i
    rw [List.mem_iff_getElem?]
    constructor
    · rintro ⟨k, hk⟩
      obtain ⟨h1, h2⟩ := (select_skip_range_getElem? n hn frames.length k i).mp hk
      exact ⟨h2 ▸ h1, ⟨k, by rw [h2, Nat.mul_comm]⟩⟩
    · rintro ⟨h1, k, rfl⟩
      exact ⟨k, (select_skip_range_getElem? n hn frames.length k (n * k)).mpr
        ⟨by rwa [Nat.mul_comm], Nat.mul_comm n k⟩⟩
  · rw [List.pairwise_iff_getElem]
    intro a b ha hb hab
    have h1 := (select_skip_range_getElem? n hn frames.length a _).mp
      (List.getElem?_eq_getElem ha)
    have h2 := (select_skip_range_getElem? n hn frames.length b _).mp
      (List.getElem?_eq_getElem hb)
    rw [h1.2, h2.2]
    exact Nat.mul_lt_mul_of_lt_of_le hab (Nat.le_refl n) (by omega)

/-- Witness of C15: "skip 3" over the eleven frames 0, ..., 10. -/
theorem select_skip_multiples_witness :
    1 ≤ 3 ∧
    (∀ k, (select_skip 3 (List.range 11))[k]? = (List.range 11)[k * 3]?) ∧
    (∀ i, i ∈ select_skip 3 (List.range (List.range 11).length) ↔
      i < (List.range 11).length ∧ 3 ∣ i) ∧
    (select_skip 3 (List.range (List.range 11).length)).Pairwise (· < ·) ∧
    select_skip 2 (List.range 6) = [0, 2, 4] :=
  ⟨by decide, select_skip_multiples 3 (by decide) (List.range 11)⟩

/-! ### Shortest-path analyzer -/

theorem shortest_paths_sorted (frame : Frame ℚ) (source dest : Int) (k : Nat) :
    (shortest_paths frame source dest k).Pairwise (fun a b => a.2 ≤ b.2) := by
  have htotal : IsTotal (List Int × ℚ) (fun a b => a.2 ≤ b.2) := ⟨fun a b => le_total a.2 b.2⟩
  have htrans : IsTrans (List Int × ℚ) (fun a b => a.2 ≤ b.2) :=
    ⟨fun _ _ _ h1 h2 => le_trans h1 h2⟩
  have hs := List.sorted_insertionSort (fun a b : List Int × ℚ => a.2 ≤ b.2)
    (simple_paths frame.pairs dest (frame.pairs.length + 1) [source] source 0)
  exact List.Pairwise.sublist (List.take_sublist _ _) hs

/-- C14: the shortest-path analyzer reports paths in order of increasing total weight, with
edge weight 1/force: on the frame with forces (0,1) = 5, (1,2) = 3 and (0,2) = 1, from source
0 to destination 2 with k = 2, it returns exactly the path [0, 1, 2] of weight 1/5 + 1/3 = 8/15
followed by the path [0, 2] of weight 1. -/
theorem shortest_paths_scenario :
    (∀ (frame : Frame ℚ) (source dest : Int) (k : Nat),
      (shortest_paths frame source dest k).Pairwise (fun a b => a.2 ≤ b.2)) ∧
    shortest_paths frame_scenario 0 2 2 = [([0, 1, 2], 1 / 5 + 1 / 3), ([0, 2], 1)] ∧
    (1 / 5 + 1 / 3 : ℚ) = 8 / 15 := by
  refine ⟨shortest_paths_sorted, ?_, by norm_num⟩
  simp only [shortest_paths, frame_scenario, simple_paths, neighbours, edge_weight,
    List.length_cons, List.length_nil, List.filterMap_cons, List.filterMap_nil]
  norm_num [List.flatMap, List.insertionSort, List.orderedInsert, simple_paths, neighbours]

/-! ### Scope predicates, self pairs -/

/-- C21: for an atom index `i` covered by the masks, `atoms_in_groups(i, i)` returns, and
returns true exactly when atom `i` is in group 1 and in group 2; hence under disjoint masks
it returns false: no atom forms an in-scope pair with itself. -/
theorem atoms_in_groups_self (s : FDASettings) (i : Int) (hi : s.covered i) :
    (∃ b, s.atoms_in_groups i i = some b ∧
      (b = true ↔ s.in_group1 i = true ∧ s.in_group2 i = true)) ∧
    (s.disjoint_masks → s.atoms_in_groups i i = some false) := by
  obtain ⟨a1, ha1⟩ := index_of_lt s.sys_in_group1 i hi.1 hi.2.1
  obtain ⟨a2, ha2⟩ := index_of_lt s.sys_in_group2 i hi.1 hi.2.2
  constructor
  · by_cases h1 : a1 = 0 <;> by_cases h2 : a2 = 0 <;>
      simp [FDASettings.atoms_in_groups, FDASettings.one_in_each, FDASettings.in_group1,
        FDASettings.in_group2, ha1, ha2, h1, h2]
  · intro hd
    have h := hd i hi
    revert h
    by_cases h1 : a1 = 0 <;> by_cases h2 : a2 = 0 <;>
      simp [FDASettings.atoms_in_groups, FDASettings.one_in_each, FDASettings.in_group1,
        FDASettings.in_group2, ha1, ha2, h1, h2]

/-- Witness of C21: atom 0 of the three-atom settings, whose masks are disjoint, and atom 1 of
the settings whose atoms are in both groups. -/
theorem atoms_in_groups_self_witness :
    settings3.covered 0 ∧ settings3.disjoint_masks ∧
    settings3.atoms_in_groups 0 0 = some false ∧
    settings_both.covered 1 ∧ settings_both.atoms_in_groups 1 1 = some true :=
  have hd : settings3.disjoint_masks := by
    intro k hk
    obtain ⟨h0, h1, _⟩ := hk
    have h3 : k < 3 := h1
    interval_cases k <;> decide
  ⟨by decide, hd, (atoms_in_groups_self settings3 0 (by decide)).2 hd, by decide,
    by
      obtain ⟨b, hb, hiff⟩ := (atoms_in_groups_self settings_both 1 (by decide)).1
      rw [hb, hiff.mpr (by decide)]⟩

/-! ### Result-type predicates, together -/

/-- C22: the result-type predicates partition the result types: the result type `NO`
satisfies none of `PF_or_PS_mode`, `VS_mode`, `compatibility_mode` and `stress_mode`, every
other result type satisfies exactly one of `PF_or_PS_mode`, `VS_mode` and
`compatibility_mode`, and `stress_mode(r)` holds exactly when `r` is `PUNCTUAL_STRESS` or
`VS_mode(r)` holds. -/
theorem result_type_partition (s : FDASettings) (r : ResultType) :
    ((r = ResultType.NO ∧ s.PF_or_PS_mode r = false ∧ s.VS_mode r = false ∧
        s.compatibility_mode r = false ∧ s.stress_mode r = false) ∨
      (r ≠ ResultType.NO ∧
        ((s.PF_or_PS_mode r = true ∧ s.VS_mode r = false ∧ s.compatibility_mode r = false) ∨
         (s.PF_or_PS_mode r = false ∧ s.VS_mode r = true ∧ s.compatibility_mode r = false) ∨
         (s.PF_or_PS_mode r = false ∧ s.VS_mode r = false ∧ s.compatibility_mode r = true)))) ∧
    (s.stress_mode r = true ↔ r = ResultType.PUNCTUAL_STRESS ∨ s.VS_mode r = true) := by
  cases r <;>
    simp [FDASettings.PF_or_PS_mode, FDASettings.VS_mode, FDASettings.compatibility_mode,
      FDASettings.stress_mode]

end fda

namespace gmx.test

/-! ### Storage checks of the mock analysis module -/

theorem storage_rows_length (storageCount : Int) (remaining : Nat) (row : Int) :
    (storage_rows storageCount remaining row).length = 3 * remaining := by
  induction remaining generalizing row with
  | zero => rfl
  | succ n ih => simp only [storage_rows, List.length_cons, ih]; omega

theorem storage_rows_getElem? (storageCount : Int) (remaining : Nat) (row : Int) (k : Nat)
    (hk : k < remaining) :
    (storage_rows storageCount remaining row)[3 * k]?
      = some ⟨Call.frameStarted, Action.StaticDataFrameHeaderChecker (row + k)⟩ ∧
    (storage_rows storageCount remaining row)[3 * k + 1]?
      = some ⟨Call.pointsAdded, Action.StaticDataPointsStorageChecker (row + k) storageCount⟩ ∧
    (storage_rows storageCount remaining row)[3 * k + 2]?
      = some ⟨Call.frameFinished, Action.none⟩ := by
  induction remaining generalizing row k with
  | zero => omega
  | succ n ih =>
    cases k with
    | zero => simp [storage_rows]
    | succ k =>
      have h := ih (row + 1) k (by omega)
      have e0 : 3 * (k + 1) = 3 * k + 1 + 1 + 1 := by omega
      have e1 : 3 * (k + 1) + 1 = 3 * k + 1 + 1 + 1 + 1 := by omega
      have e2 : 3 * (k + 1) + 2 = 3 * k + 2 + 1 + 1 + 1 := by omega
      have hrow : row + 1 + (k : Int) = row + ((k + 1 : Nat) : Int) := by push_cast; ring
      rw [hrow] at h
      refine ⟨?_, ?_, ?_⟩
      · rw [e0]
        simp only [storage_rows, List.getElem?_cons_succ]
        exact h.1
      · rw [e1]
        simp only [storage_rows, List.getElem?_cons_succ]
        exact h.2.1
      · rw [e2]
        simp only [storage_rows, List.getElem?_cons_succ]
        exact h.2.2

/-- C16: `setupStaticStorageCheck` fails a release assertion exactly when the column counts of
the input data and of the source differ or the input data or the source is multipoint;
otherwise it appends, in sequence, `dataStarted`, then for every row `frameStarted`, one
`pointsAdded` checked by the storage checker of that row, and `frameFinished`, then
`dataFinished`, and nothing else. -/
theorem setupStaticStorageCheck_spec (efAllowMulticolumn : Nat) (m : MockAnalysisModule)
    (data : AnalysisDataTestInput) (storageCount : Int) (source : AbstractAnalysisData) :
    ((∃ e, m.setupStaticStorageCheck efAllowMulticolumn data storageCount source = .error e) ↔
      (data.columnCount ≠ source.columnCount ∨ data.isMultipoint = true
        ∨ source.isMultipoint = true)) ∧
    ((∃ m2, m.setupStaticStorageCheck efAllowMulticolumn data storageCount source = .ok m2) ↔
      ¬ (data.columnCount ≠ source.columnCount ∨ data.isMultipoint = true
        ∨ source.isMultipoint = true)) ∧
    ∀ m2, m.setupStaticStorageCheck efAllowMulticolumn data storageCount source = .ok m2 →
      ∃ expected, m2.expectations = m.expectations ++ expected ∧
        expected.length = 3 * data.frameCount.toNat + 2 ∧
        expected[0]? = some ⟨Call.dataStarted, Action.DataStorageRequester storageCount⟩ ∧
        (∀ row : Nat, row < data.frameCount.toNat →
          expected[3 * row + 1]?
            = some ⟨Call.frameStarted, Action.StaticDataFrameHeaderChecker row⟩ ∧
          expected[3 * row + 2]?
            = some ⟨Call.pointsAdded, Action.StaticDataPointsStorageChecker row storageCount⟩ ∧
          expected[3 * row + 3]? = some ⟨Call.frameFinished, Action.none⟩) ∧
        expected[3 * data.frameCount.toNat + 1]? = some ⟨Call.dataFinished, Action.none⟩ := by
  unfold MockAnalysisModule.setupStaticStorageCheck
  by_cases hc : data.columnCount ≠ source.columnCount
  · simp [hc]
  · by_cases hm : data.isMultipoint = true ∨ source.isMultipoint = true
    · have hm2 : ¬ (!data.isMultipoint && !source.isMultipoint) = true := by
        rcases hm with h | h <;> simp [h]
      simp only [if_neg hc, if_pos hm2]
      simp [hc, hm]
    · have hm2 : ¬ ¬ (!data.isMultipoint && !source.isMultipoint) = true := by
        simp only [not_or, Bool.not_eq_true] at hm
        simp [hm.1, hm.2]
      simp only [if_neg hc, if_neg hm2]
      refine ⟨by simp [hc, hm], by simp [hc, hm], ?_⟩
      intro m2 h2
      cases h2
      refine ⟨_, rfl, ?_, by simp, ?_, ?_⟩
      · simp only [List.length_cons, List.length_append, storage_rows_length, List.length_nil]
      · intro row hrow
        obtain ⟨h0, h1, h2⟩ := storage_rows_getElem? storageCount data.frameCount.toNat 0 row hrow
        have hlen := storage_rows_length storageCount data.frameCount.toNat 0
        simp only [Int.zero_add] at h0 h1
        simp only [List.getElem?_cons_succ]
        rw [List.getElem?_append_left (by omega), List.getElem?_append_left (by omega),
          List.getElem?_append_left (by omega)]
        exact ⟨h0, h1, h2⟩
      · have hlen := storage_rows_length storageCount data.frameCount.toNat 0
        simp only [List.getElem?_cons_succ]
        rw [List.getElem?_append_right (by omega)]
        simp [hlen]

/-- Witness of C16: two rows of non-multipoint data with matching column counts. -/
theorem setupStaticStorageCheck_spec_witness :
    ∃ m2, (MockAnalysisModule.mk 1 []).setupStaticStorageCheck 4 ⟨2, false, 2⟩ 1 ⟨2, false⟩
        = .ok m2 ∧
      ∃ expected, m2.expectations = [] ++ expected ∧ expected.length = 3 * 2 + 2 ∧
        expected[3 * 1 + 2]?
          = some ⟨Call.pointsAdded, Action.StaticDataPointsStorageChecker 1 1⟩ := by
  have h := setupStaticStorageCheck_spec 4 (MockAnalysisModule.mk 1 []) ⟨2, false, 2⟩ 1
    ⟨2, false⟩
  obtain ⟨m2, h2⟩ := h.2.1.mpr (by decide)
  obtain ⟨expected, h3, h4, _, h5, _⟩ := h.2.2 m2 h2
  exact ⟨m2, h2, expected, h3, h4, (h5 1 (by decide)).2.1⟩

theorem last_past_le (f s : Int) (hf : 0 ≤ f) : (last_past f s : Int) ≤ f := by
  unfold last_past
  split <;> omega

theorem loop_condition_iff (f s : Int) (hf : 0 ≤ f) (past : Nat) :
    ((s < 0 ∨ (past : Int) ≤ s) ∧ (past : Int) ≤ f) ↔ past ≤ last_past f s := by
  unfold last_past
  split <;> omega

theorem storage_loop_all (stored : Int → Bool) (f s : Int) (hf : 0 ≤ f)
    (hstored : ∀ past : Nat, past ≤ last_past f s →
      stored (f - past) = true ∧ (0 < past → stored (-(past : Int)) = true)) :
    ∀ (n past fuel : Nat), past + n = last_past f s + 1 → f.toNat + 1 ≤ fuel + past →
      storage_loop stored f s fuel past = some ((List.range' past n).flatMap (iteration f)) := by
  intro n
  induction n with
  | zero =>
    intro past fuel hn _
    have hc : ¬ ((s < 0 ∨ (past : Int) ≤ s) ∧ (past : Int) ≤ f) := by
      rw [loop_condition_iff f s hf]
      omega
    cases fuel <;> simp [storage_loop, hc]
  | succ n ih =>
    intro past fuel hn hfuel
    have hle : past ≤ last_past f s := by omega
    have hc : (s < 0 ∨ (past : Int) ≤ s) ∧ (past : Int) ≤ f :=
      (loop_condition_iff f s hf past).mpr hle
    have hlast := last_past_le f s hf
    obtain ⟨fuel, rfl⟩ : ∃ k, fuel = k + 1 := ⟨fuel - 1, by omega⟩
    have hrec := ih (past + 1) fuel (by omega) (by omega)
    have hcast : ((past : Int) + 1) = ((past + 1 : Nat) : Int) := by push_cast; rfl
    obtain ⟨h1, h2⟩ := hstored past hle
    by_cases hp : 0 < past
    · have hp2 : (past : Int) > 0 := by omega
      have h3 := h2 hp
      simp only [storage_loop, hc, and_self, if_true, h1, h3, hcast, hrec, Option.map_some',
        List.range'_succ, List.flatMap_cons, iteration]
      simp [hp, hp2]
    · have hp2 : ¬ (past : Int) > 0 := by omega
      simp only [storage_loop, hc, and_self, if_true, h1, hcast, hrec, Option.map_some',
        List.range'_succ, List.flatMap_cons, iteration]
      simp [hp, hp2]

theorem storage_loop_checks (stored : Int → Bool) (f s : Int) :
    ∀ (fuel : Nat) (past : Int) (trace : List StorageEvent), 0 ≤ past →
      storage_loop stored f s fuel past = some trace →
      ∀ index reference, StorageEvent.checkFrame index reference ∈ trace →
        0 ≤ index ∧ index ≤ f ∧ reference = index := by
  intro fuel
  induction fuel with
  | zero =>
    intro past trace _ h index reference hmem
    simp only [storage_loop] at h
    split at h
    · cases h
    · cases h
      cases hmem
  | succ fuel ih =>
    intro past trace hpast h index reference hmem
    simp only [storage_loop] at h
    split at h
    · rename_i hc
      split at h
      · split at h
        · split at h
          · cases hrec : storage_loop stored f s fuel (past + 1) with
            | none => rw [hrec] at h; cases h
            | some rest =>
              rw [hrec] at h
              cases h
              simp only [List.cons_append, List.nil_append, List.mem_cons,
                StorageEvent.checkFrame.injEq, reduceCtorEq, false_or] at hmem
              rcases hmem with ⟨rfl, rfl⟩ | ⟨rfl, rfl⟩ | hmem
              · omega
              · omega
              · exact ih (past + 1) rest (by omega) hrec index reference hmem
          · cases h
            simp only [List.cons_append, List.nil_append, List.mem_cons,
              StorageEvent.checkFrame.injEq, reduceCtorEq, false_or, List.mem_singleton,
              or_false, List.not_mem_nil] at hmem
            obtain ⟨rfl, rfl⟩ := hmem
            omega
        · cases hrec : storage_loop stored f s fuel (past + 1) with
          | none => rw [hrec] at h; cases h
          | some rest =>
            rw [hrec] at h
            cases h
            simp only [List.cons_append, List.nil_append, List.mem_cons,
              StorageEvent.checkFrame.injEq, reduceCtorEq, false_or] at hmem
            rcases hmem with ⟨rfl, rfl⟩ | hmem
            · omega
            · exact ih (past + 1) rest (by omega) hrec index reference hmem
      · cases h
        simp at hmem
    · cases h
      cases hmem

theorem storage_loop_total (stored : Int → Bool) (f s : Int) :
    ∀ (fuel : Nat) (past : Int), f + 1 ≤ fuel + past →
      ∃ trace, storage_loop stored f s fuel past = some trace := by
  intro fuel
  induction fuel with
  | zero =>
    intro past h
    have hc : ¬ ((s < 0 ∨ past ≤ s) ∧ past ≤ f) := by
      simp only [Nat.cast_zero] at h
      omega
    exact ⟨[], by simp [storage_loop, hc]⟩
  | succ fuel ih =>
    intro past h
    obtain ⟨rest, hrest⟩ := ih (past + 1) (by push_cast at h; omega)
    simp only [storage_loop, hrest, Option.map_some']
    split
    · split
      · split
        · split
          · exact ⟨_, rfl⟩
          · exact ⟨_, rfl⟩
        · exact ⟨_, rfl⟩
      · exact ⟨_, rfl⟩
    · exact ⟨_, rfl⟩

/-- C19: for a frame index `f ≥ 0` and a storage count `s`, over a source that holds the
frames requested (frame `f - past` by its absolute index, and for `past > 0` by the relative
index `-past`; nothing else is asked of the source), the storage checker checks the current
point set and then, for `past = 0, ..., min(s, f)` when `s ≥ 0` and for `past = 0, ..., f` when
`s < 0`, reads the frame `f - past` by its absolute index and checks it, and for `past > 0`
reads it again by the relative index `-past` and checks it against the same reference frame
`f - past`. No absolute index is negative; and over any source the checker returns, and every
frame it has checked has a non-negative index and was checked against the reference frame of
that index. -/
theorem storage_checker_frames (stored : Int → Bool) (f s : Int) (hf : 0 ≤ f)
    (hstored : ∀ past : Nat, past ≤ last_past f s →
      stored (f - past) = true ∧ (0 < past → stored (-(past : Int)) = true)) :
    StaticDataPointsStorageChecker stored f s
      = some (StorageEvent.checkCurrent f ::
          (List.range (last_past f s + 1)).flatMap (iteration f)) ∧
    (∀ past : Nat, past ≤ last_past f s → 0 ≤ f - past) ∧
    ((s < 0 → (last_past f s : Int) = f) ∧ (0 ≤ s → (last_past f s : Int) = min s f)) ∧
    ∀ stored2 : Int → Bool, ∃ trace, StaticDataPointsStorageChecker stored2 f s = some trace ∧
      ∀ index reference, StorageEvent.checkFrame index reference ∈ trace →
        0 ≤ index ∧ index ≤ f ∧ reference = index := by
  refine ⟨?_, ?_, ?_, ?_⟩
  · have h := storage_loop_all stored f s hf hstored (last_past f s + 1) 0 (f.toNat + 1)
      (by omega) (by omega)
    simp only [StaticDataPointsStorageChecker, Nat.cast_zero] at h ⊢
    rw [h, List.range_eq_range']
    rfl
  · intro past hpast
    have h := last_past_le f s hf
    omega
  · unfold last_past
    constructor
    · intro hs
      rw [if_pos hs]
      omega
    · intro hs
      rw [if_neg (by omega)]
      omega
  · intro stored2
    obtain ⟨rest, hrest⟩ := storage_loop_total stored2 f s (f.toNat + 1) 0
      (by push_cast; omega)
    refine ⟨StorageEvent.checkCurrent f :: rest, ?_, ?_⟩
    · simp only [StaticDataPointsStorageChecker, hrest, Option.map_some']
    · intro index reference hmem
      simp only [List.mem_cons, reduceCtorEq, false_or] at hmem
      exact storage_loop_checks stored2 f s (f.toNat + 1) 0 rest (le_refl 0) hrest
        index reference hmem

/-- Witness of C19: frame index 3 with storage count 1, over a source that holds exactly the
frames requested: the absolute indices 3 and 2 and the relative index -1. -/
theorem storage_checker_frames_witness :
    (0 : Int) ≤ 3 ∧ stored_limited 0 = false ∧ stored_limited 1 = false ∧
    StaticDataPointsStorageChecker stored_limited 3 1
      = some [StorageEvent.checkCurrent 3,
          StorageEvent.getDataWErr 3, StorageEvent.checkFrame 3 3,
          StorageEvent.getDataWErr 2, StorageEvent.checkFrame 2 2,
          StorageEvent.getDataWErr (-1), StorageEvent.checkFrame 2 2] :=
  have h : ∀ past : Nat, past ≤ last_past 3 1 →
      stored_limited (3 - past) = true ∧ (0 < past → stored_limited (-(past : Int)) = true) := by
    intro past hp
    have h1 : last_past 3 1 = 1 := by decide
    rw [h1] at hp
    interval_cases past <;> decide
  ⟨by decide, by decide, by decide,
    (storage_checker_frames stored_limited 3 1 (by decide) h).1.trans (by decide)⟩

/-! ### Column checks of the mock analysis module -/

theorem int_add_eq (a b : Int) (h1 : -(2 ^ 31) ≤ a + b) (h2 : a + b ≤ INT_MAX) :
    int_add a b = a + b := by
  unfold INT_MAX at h2
  unfold int_add
  omega

theorem checkPoints_loop_eq (firstColumn columnOffset : Int) (remaining : Nat) (i : Int) :
    checkPoints_loop firstColumn columnOffset remaining i
      = (List.range remaining).map (fun k : Nat =>
          PointsEvent.compare (int_add (int_add firstColumn columnOffset) (i + k)) (i + k)) := by
  induction remaining generalizing i with
  | zero => rfl
  | succ r ih =>
    rw [checkPoints_loop, ih, List.range_succ_eq_map, List.map_cons, List.map_map]
    simp only [Nat.cast_zero, Int.add_zero, List.cons.injEq, true_and]
    apply List.map_congr_left
    intro k _
    have h : i + 1 + (k : Int) = i + ((k + 1 : Nat) : Int) := by push_cast; ring
    simp only [Function.comp_apply, Nat.succ_eq_add_one, h]

theorem column_point_sets_actions (row firstcol n : Int) (remaining : Nat) (ps : Int) :
    ∀ e ∈ column_point_sets row firstcol n remaining ps,
      ∃ r p, e.action = Action.StaticDataPointsChecker r p firstcol n := by
  induction remaining generalizing ps with
  | zero => intro e he; cases he
  | succ k ih =>
    intro e he
    simp only [column_point_sets, List.mem_cons] at he
    rcases he with rfl | he
    · exact ⟨row, ps, rfl⟩
    · exact ih (ps + 1) e he

theorem column_rows_actions (pointSetCount : Int → Int) (firstcol n : Int) (remaining : Nat)
    (row : Int) :
    ∀ e ∈ column_rows pointSetCount firstcol n remaining row, e.call = Call.pointsAdded →
      ∃ r p, e.action = Action.StaticDataPointsChecker r p firstcol n := by
  induction remaining generalizing row with
  | zero => intro e he; cases he
  | succ k ih =>
    intro e he hcall
    simp only [column_rows, List.mem_cons, List.mem_append] at he
    rcases he with rfl | he | rfl | he
    · cases hcall
    · exact column_point_sets_actions row firstcol n _ 0 e he
    · cases hcall
    · exact ih (row + 1) e he hcall

/-- The column check for columns whose sum `firstcol + n` is within the range of `int`: when
`setupStaticColumnCheck` passes its release assertions, the column counts of the data and the
source agree, `firstcol ≥ 0`, `n > 0` and `firstcol + n ≤ data.columnCount()`; every
`pointsAdded` expectation it sets has a points checker of this `firstcol` and `n`; and for a
point set with first column 0 and `n` columns that checker raises no failure and reads exactly
the reference columns `firstcol + i` for `0 ≤ i < n`, each inside `[0, data.columnCount())`. -/
theorem column_check_reads_in_range (efAllowMulticolumn efAllowMultipoint : Nat)
    (m m2 : MockAnalysisModule) (data : AnalysisDataTestInput) (pointSetCount : Int → Int)
    (firstcol n : Int) (source : AbstractAnalysisData)
    (hsum : firstcol + n ≤ INT_MAX)
    (hok : m.setupStaticColumnCheck efAllowMulticolumn efAllowMultipoint data pointSetCount
      firstcol n source = .ok m2)
    (points : AnalysisDataPointSetRef) (hfirst : points.firstColumn = 0)
    (hcount : points.columnCount = n) :
    (data.columnCount = source.columnCount ∧ 0 ≤ firstcol ∧ 0 < n
      ∧ firstcol + n ≤ data.columnCount) ∧
    (∃ expected, m2.expectations = m.expectations ++ expected ∧
      ∀ e ∈ expected, e.call = Call.pointsAdded →
        ∃ row ps, e.action = Action.StaticDataPointsChecker row ps firstcol n) ∧
    StaticDataPointsChecker firstcol n points
      = PointsEvent.checkHeader ::
        (List.range n.toNat).map (fun i : Nat => PointsEvent.compare (firstcol + i) i) ∧
    ∀ c i, PointsEvent.compare c i ∈ StaticDataPointsChecker firstcol n points →
      0 ≤ c ∧ c < data.columnCount := by
  unfold MockAnalysisModule.setupStaticColumnCheck at hok
  split at hok
  · cases hok
  · rename_i hcols
    split at hok
    · cases hok
    · rename_i hrange
      have hcols2 : data.columnCount = source.columnCount := by
        by_contra h
        exact hcols h
      have hrange1 : firstcol ≥ 0 ∧ n > 0 ∧ int_add firstcol n ≤ data.columnCount := by
        by_contra h
        exact hrange h
      have hadd : int_add firstcol n = firstcol + n :=
        int_add_eq firstcol n (by omega) hsum
      have hrange2 : firstcol ≥ 0 ∧ n > 0 ∧ firstcol + n ≤ data.columnCount := by
        rw [hadd] at hrange1
        exact hrange1
      have hmax : firstcol + n ≤ 2 ^ 31 - 1 := hsum
      have htrace : StaticDataPointsChecker firstcol n points
          = PointsEvent.checkHeader ::
            (List.range n.toNat).map (fun i : Nat => PointsEvent.compare (firstcol + i) i) := by
        simp only [StaticDataPointsChecker, checkPoints, hfirst, hcount, if_true,
          List.nil_append, checkPoints_loop_eq, Int.zero_add, List.cons.injEq, true_and]
        apply List.map_congr_left
        intro k hk
        have hk2 : k < n.toNat := List.mem_range.mp hk
        have h0 : int_add 0 firstcol = firstcol := by
          rw [int_add_eq 0 firstcol (by omega) (by unfold INT_MAX; omega), Int.zero_add]
        rw [h0, int_add_eq firstcol k (by omega) (by unfold INT_MAX; omega)]
      cases hok
      refine ⟨⟨hcols2, hrange2.1, hrange2.2.1, hrange2.2.2⟩, ⟨_, rfl, ?_⟩, htrace, ?_⟩
      · intro e he hcall
        simp only [List.mem_cons, List.mem_append, List.mem_singleton, List.not_mem_nil,
          or_false] at he
        rcases he with rfl | he | rfl
        · cases hcall
        · exact column_rows_actions pointSetCount firstcol n _ 0 e he hcall
        · cases hcall
      · intro c i hmem
        rw [htrace] at hmem
        simp only [List.mem_cons, reduceCtorEq, false_or, List.mem_map, List.mem_range,
          PointsEvent.compare.injEq] at hmem
        obtain ⟨k, hk, rfl, _⟩ := hmem
        omega

/-- The column check at columns 1 and 2 of five, over two frames with one and two point
sets. -/
theorem column_check_reads_in_range_example :
    ∃ m2, (MockAnalysisModule.mk 1 []).setupStaticColumnCheck 4 8 ⟨5, true, 2⟩
        (fun row => row + 1) 1 2 ⟨5, true⟩ = .ok m2 ∧
      StaticDataPointsChecker 1 2 ⟨0, 2⟩
        = [PointsEvent.checkHeader, PointsEvent.compare 1 0, PointsEvent.compare 2 1] ∧
      ∀ c i, PointsEvent.compare c i ∈ StaticDataPointsChecker 1 2 ⟨0, 2⟩ → 0 ≤ c ∧ c < 5 :=
  ⟨_, rfl, by decide,
    (column_check_reads_in_range 4 8 (MockAnalysisModule.mk 1 []) _ ⟨5, true, 2⟩
      (fun row => row + 1) 1 2 ⟨5, true⟩ (by decide) rfl ⟨0, 2⟩ rfl rfl).2.2.2⟩

theorem run_cons_failures (st : Impl) (c : ImplCall) (cs : List ImplCall)
    (h : (st.run (c :: cs)).2 = []) : (st.call c).2 = [] ∧ ((st.call c).1.run cs).2 = [] := by
  simp only [Impl.run, List.append_eq_nil] at h
  exact h

theorem run_append (st : Impl) (p q : List ImplCall) :
    st.run (p ++ q) = (((st.run p).1.run q).1, (st.run p).2 ++ ((st.run p).1.run q).2) := by
  induction p generalizing st with
  | nil => simp [Impl.run]
  | cons c cs ih =>
    have h := ih (st.call c).1
    show (((st.call c).1.run (cs ++ q)).1,
      (st.call c).2 ++ ((st.call c).1.run (cs ++ q)).2) = _
    rw [h]
    simp only [Impl.run, List.append_assoc]

/-- A call that raises no failure: a start finds no frame open and carries the header index
`frameIndex_`; a point check and a finish find a frame open. -/
theorem call_no_failure (st : Impl) (c : ImplCall) (h : (st.call c).2 = []) :
    (st.call c).1.frameIndex_ = st.frameIndex_ + (if c.is_start then 1 else 0) ∧
    (match c with
      | ImplCall.startReferenceFrame header =>
        st.open_frames = 0 ∧ (st.call c).1.open_frames = 1 ∧ header.index = st.frameIndex_
      | ImplCall.checkReferencePoints _ => st.open_frames = 1 ∧ (st.call c).1.open_frames = 1
      | ImplCall.finishReferenceFrame => st.open_frames = 1 ∧ (st.call c).1.open_frames = 0) := by
  cases c with
  | startReferenceFrame header =>
    simp only [Impl.call, Impl.startReferenceFrame, List.append_eq_nil] at h
    obtain ⟨h1, h2⟩ := h
    have hnull : st.frameChecker_ = none := by
      by_contra hne
      simp [hne] at h1
    have hidx : st.frameIndex_ = header.index := by
      by_contra hne
      simp [hne] at h2
    simp [Impl.call, Impl.startReferenceFrame, Impl.open_frames, ImplCall.is_start, hnull, hidx]
  | checkReferencePoints y =>
    cases hfc : st.frameChecker_ with
    | none => simp [Impl.call, Impl.checkReferencePoints, hfc] at h
    | some fc =>
      simp [Impl.call, Impl.checkReferencePoints, Impl.open_frames, ImplCall.is_start, hfc]
  | finishReferenceFrame =>
    cases hfc : st.frameChecker_ with
    | none => simp [Impl.call, Impl.finishReferenceFrame, hfc] at h
    | some fc =>
      simp [Impl.call, Impl.finishReferenceFrame, Impl.open_frames, ImplCall.is_start, hfc]

/-- After a sequence of calls that raises no failure, `frameIndex_` has grown by the number of
frames started, and the frames started and not finished are the frames open. -/
theorem run_counts (calls : List ImplCall) (st : Impl) (h : (st.run calls).2 = []) :
    (st.run calls).1.frameIndex_ = st.frameIndex_ + starts calls ∧
    starts calls + st.open_frames = finishes calls + (st.run calls).1.open_frames := by
  induction calls generalizing st with
  | nil => simp [Impl.run, starts, finishes]
  | cons c cs ih =>
    obtain ⟨h1, h2⟩ := run_cons_failures st c cs h
    obtain ⟨hidx, hopen⟩ := ih (st.call c).1 h2
    obtain ⟨hstep, hc⟩ := call_no_failure st c h1
    have hrun : (st.run (c :: cs)).1 = ((st.call c).1.run cs).1 := rfl
    rw [hrun, hidx, hstep]
    cases c with
    | startReferenceFrame header =>
      simp only [starts, finishes, List.countP_cons, ImplCall.is_start, ImplCall.is_finish,
        if_true, Bool.false_eq_true, if_false] at hopen ⊢
      simp only at hc
      constructor
      · push_cast; ring
      · omega
    | checkReferencePoints y =>
      simp only [starts, finishes, List.countP_cons, ImplCall.is_start, ImplCall.is_finish,
        Bool.false_eq_true, if_false] at hopen ⊢
      simp only at hc
      constructor
      · push_cast; ring
      · omega
    | finishReferenceFrame =>
      simp only [starts, finishes, List.countP_cons, ImplCall.is_start, ImplCall.is_finish,
        if_true, Bool.false_eq_true, if_false] at hopen ⊢
      simp only at hc
      constructor
      · push_cast; ring
      · omega

theorem run_header_indices (calls : List ImplCall) (st : Impl) (h : (st.run calls).2 = []) :
    calls.filterMap ImplCall.header_index
      = (List.range (starts calls)).map (fun k : Nat => st.frameIndex_ + k) := by
  induction calls generalizing st with
  | nil => simp [starts]
  | cons c cs ih =>
    obtain ⟨h1, h2⟩ := run_cons_failures st c cs h
    have hrest := ih (st.call c).1 h2
    obtain ⟨hstep, hc⟩ := call_no_failure st c h1
    rw [hstep] at hrest
    cases c with
    | startReferenceFrame header =>
      simp only at hc
      simp only [ImplCall.is_start, if_true] at hrest
      simp only [List.filterMap_cons, ImplCall.header_index, starts, List.countP_cons,
        ImplCall.is_start, if_true, List.range_succ_eq_map, List.map_cons, List.map_map,
        Nat.cast_zero, Int.add_zero, hc.2.2, List.cons.injEq, true_and]
      simp only [starts] at hrest
      rw [hrest]
      apply List.map_congr_left
      intro k _
      simp only [Function.comp_apply, Nat.cast_succ]
      ring
    | checkReferencePoints y =>
      simp only [ImplCall.is_start, Bool.false_eq_true, if_false, Int.add_zero] at hrest
      simp only [List.filterMap_cons, ImplCall.header_index, starts, List.countP_cons,
        ImplCall.is_start, Bool.false_eq_true, if_false, Nat.add_zero]
      exact hrest
    | finishReferenceFrame =>
      simp only [ImplCall.is_start, Bool.false_eq_true, if_false, Int.add_zero] at hrest
      simp only [List.filterMap_cons, ImplCall.header_index, starts, List.countP_cons,
        ImplCall.is_start, Bool.false_eq_true, if_false, Nat.add_zero]
      exact hrest

theorem run_alternates (calls : List ImplCall) (st : Impl) (h : (st.run calls).2 = []) :
    ∀ k c, (calls.filter (fun c => c.is_start || c.is_finish))[k]? = some c →
      (c.is_start = true ↔ (k + st.open_frames) % 2 = 0) := by
  induction calls generalizing st with
  | nil => intro k c hk; simp at hk
  | cons c0 cs ih =>
    obtain ⟨h1, h2⟩ := run_cons_failures st c0 cs h
    have hrest := ih (st.call c0).1 h2
    obtain ⟨_, hc⟩ := call_no_failure st c0 h1
    intro k c hk
    cases c0 with
    | startReferenceFrame header =>
      simp only at hc
      simp only [List.filter_cons, ImplCall.is_start, Bool.true_or, if_true] at hk
      cases k with
      | zero =>
        simp only [List.getElem?_cons_zero, Option.some.injEq] at hk
        subst hk
        simp [ImplCall.is_start, hc.1]
      | succ k =>
        simp only [List.getElem?_cons_succ] at hk
        have := hrest k c hk
        rw [this, hc.1, hc.2.1]
    | checkReferencePoints y =>
      simp only at hc
      simp only [List.filter_cons, ImplCall.is_start, ImplCall.is_finish, Bool.or_self,
        Bool.false_eq_true, if_false] at hk
      have := hrest k c hk
      rw [this, hc.1, hc.2]
    | finishReferenceFrame =>
      simp only at hc
      simp only [List.filter_cons, ImplCall.is_start, ImplCall.is_finish, Bool.or_true,
        if_true] at hk
      cases k with
      | zero =>
        simp only [List.getElem?_cons_zero, Option.some.injEq] at hk
        subst hk
        simp [ImplCall.is_start, hc.1]
      | succ k =>
        simp only [List.getElem?_cons_succ] at hk
        have := hrest k c hk
        rw [this, hc.1, hc.2]
        omega

/-- C24: in a sequence of `startReferenceFrame` / `checkReferencePoints` /
`finishReferenceFrame` calls on a fresh `Impl` that raises no expectation failure, the starts
and finishes alternate strictly, beginning with a start; a point check comes only while one
frame is started and not finished; the `k`-th started frame (from 0) carries the header index
`k`; and after every prefix of the sequence `frameIndex_` is the number of frames started so
far. -/
theorem reference_frames_in_order (flags : Nat) (calls : List ImplCall)
    (hno : ((Impl.constructor flags).run calls).2 = []) :
    (∀ k c, (calls.filter (fun c => c.is_start || c.is_finish))[k]? = some c →
      (c.is_start = true ↔ k % 2 = 0)) ∧
    (∀ p y q, calls = p ++ ImplCall.checkReferencePoints y :: q →
      starts p = finishes p + 1) ∧
    calls.filterMap ImplCall.header_index
      = (List.range (starts calls)).map (fun k : Nat => (k : Int)) ∧
    (∀ p q, calls = p ++ q → ((Impl.constructor flags).run p).1.frameIndex_ = starts p) := by
  have hprefix : ∀ p q, calls = p ++ q → ((Impl.constructor flags).run p).2 = [] ∧
      (((Impl.constructor flags).run p).1.run q).2 = [] := by
    intro p q hpq
    rw [hpq, run_append] at hno
    exact List.append_eq_nil.mp hno
  refine ⟨?_, ?_, ?_, ?_⟩
  · intro k c hk
    have h := run_alternates calls (Impl.constructor flags) hno k c hk
    simpa [Impl.open_frames, Impl.constructor] using h
  · intro p y q hpq
    obtain ⟨hp, hq⟩ := hprefix p _ hpq
    obtain ⟨hcall, _⟩ := run_cons_failures _ _ _ hq
    obtain ⟨_, hc⟩ := call_no_failure _ _ hcall
    simp only at hc
    obtain ⟨_, hcount⟩ := run_counts p (Impl.constructor flags) hp
    rw [hc.1] at hcount
    simpa [Impl.open_frames, Impl.constructor] using hcount
  · have h := run_header_indices calls (Impl.constructor flags) hno
    simpa [Impl.constructor] using h
  · intro p q hpq
    obtain ⟨hp, _⟩ := hprefix p q hpq
    obtain ⟨hidx, _⟩ := run_counts p (Impl.constructor flags) hp
    simpa [Impl.constructor] using hidx

/-- Witness of C24: the calls of `calls_three` raise no failure; the three frames started
carry the header indices 0, 1 and 2. -/
theorem reference_frames_in_order_witness :
    ((Impl.constructor 0).run calls_three).2 = [] ∧
    calls_three.filterMap ImplCall.header_index
      = (List.range (starts calls_three)).map (fun k : Nat => (k : Int)) ∧
    ((Impl.constructor 0).run calls_three).1.frameIndex_ = starts calls_three :=
  have h := reference_frames_in_order 0 calls_three (by decide)
  ⟨by decide, h.2.2.1, h.2.2.2 calls_three [] (by simp)⟩

end gmx.test
